import Mathlib

/-!
Verification of the tic-tac-toe session server (`src/server/index.js`).

The server code is shallowly embedded below: boards are lists of nine
optional symbols, the pure helpers (`getWinner`, `getAvailableMoves`,
`applyMove`, `minimax`, `getBotMove`, …) are translated function by
function, and the socket handlers become pure state transformers.
-/

namespace TTT

set_option maxRecDepth 8000
set_option maxHeartbeats 4000000

inductive Sym where
  | X : Sym
  | O : Sym
deriving DecidableEq, Repr

namespace Sym

/-- The opposing symbol: `symbol === 'X' ? 'O' : 'X'`. -/
def other : Sym → Sym
  | X => O
  | O => X

theorem other_ne (s : Sym) : s.other ≠ s := by cases s <;> simp [other]

theorem other_other (s : Sym) : s.other.other = s := by cases s <;> rfl

end Sym

/-- A board cell: `null`, `'X'` or `'O'`. -/
abbrev Cell := Option Sym

/-- `winLines`: the 8 winning index triples, in source order. -/
def winLines : List (Nat × Nat × Nat) :=
  [(0, 1, 2), (3, 4, 5), (6, 7, 8), (0, 3, 6), (1, 4, 7), (2, 5, 8), (0, 4, 8), (2, 4, 6)]

/-- `emptyBoard`: `Array(9).fill(null)`. -/
def emptyBoard : List Cell := List.replicate 9 none

/-- Cell lookup, `board[i]` (out-of-range reads give `null`, as in JS). -/
def cellAt (board : List Cell) (i : Nat) : Cell := board[i]?.getD none

/-- `getWinner`: first win line fully occupied by one symbol, else `null`. -/
def getWinner (board : List Cell) : Option Sym :=
  winLines.foldr
    (fun line acc =>
      match cellAt board line.1 with
      | some s =>
          if cellAt board line.2.1 = some s ∧ cellAt board line.2.2 = some s then some s else acc
      | none => acc)
    none

/-- `board.every(Boolean)`: every cell is occupied. -/
def boardFull (board : List Cell) : Bool := board.all fun c => c ≠ none

/-- `getAvailableMoves`: indices of empty cells, ascending. -/
def getAvailableMoves (board : List Cell) : List Nat :=
  board.enum.filterMap fun p => match p.2 with | none => some p.1 | some _ => none

/-- Number of empty cells; the minimax recursion consumes one per ply. -/
def countEmpty (board : List Cell) : Nat := board.countP fun c => c = none

/-- Result record of `minimax`: terminal positions carry no index. -/
structure MMResult where
  index : Option Nat
  score : Int
deriving DecidableEq, Repr

/-- `moves.reduce((best, move) => (move.score > best.score ? move : best))`. -/
def bestMax (m : Nat × Int) (ms : List (Nat × Int)) : Nat × Int :=
  ms.foldl (fun best mv => if mv.2 > best.2 then mv else best) m

/-- `moves.reduce((best, move) => (move.score < best.score ? move : best))`. -/
def bestMin (m : Nat × Int) (ms : List (Nat × Int)) : Nat × Int :=
  ms.foldl (fun best mv => if mv.2 < best.2 then mv else best) m

/-- `minimax`, fuel-indexed so that it computes by kernel reduction.  The JS
function mutates and restores the board around each recursive call, which is
observationally a pure call on `board.set index current`.  One empty cell is
consumed per ply, so any `fuel ≥ countEmpty board` yields the source value;
`minimax` below instantiates `fuel := board.length ≥ countEmpty board`.  The
two `⟨none, 0⟩` fallbacks (exhausted fuel, empty move list) are unreachable
under that bound: a non-full board always offers a move. -/
def minimaxF (bot hum : Sym) (fuel : Nat) (board : List Cell) (current : Sym)
    (depth : Nat) : MMResult :=
  let winner := getWinner board
  if winner = some bot then ⟨none, (10 : Int) - depth⟩
  else if winner = some hum then ⟨none, (depth : Int) - 10⟩
  else if boardFull board then ⟨none, 0⟩
  else
    match fuel with
    | 0 => ⟨none, 0⟩
    | fuel' + 1 =>
      let moves := (getAvailableMoves board).map fun i =>
        (i, (minimaxF bot hum fuel' (board.set i (some current))
              (if current = bot then hum else bot) (depth + 1)).score)
      match moves with
      | [] => ⟨none, 0⟩
      | m :: ms =>
        if current = bot then
          let b := bestMax m ms
          ⟨some b.1, b.2⟩
        else
          let b := bestMin m ms
          ⟨some b.1, b.2⟩

/-- `minimax(board, current, botSymbol, humanSymbol, depth)`. -/
def minimax (board : List Cell) (current bot hum : Sym) (depth : Nat) : MMResult :=
  minimaxF bot hum board.length board current depth

/-! ### Basic facts about boards, `getAvailableMoves` and `countEmpty` -/

theorem cellAt_nil (i : Nat) : cellAt [] i = none := by
  cases i <;> rfl

theorem cellAt_cons_zero (c : Cell) (rest : List Cell) : cellAt (c :: rest) 0 = c := by
  simp [cellAt]

theorem cellAt_cons_succ (c : Cell) (rest : List Cell) (i : Nat) :
    cellAt (c :: rest) (i + 1) = cellAt rest i := by
  simp [cellAt]

theorem availAux (board : List Cell) : ∀ n : Nat,
    (List.enumFrom n board).filterMap
        (fun p => match p.2 with | none => some p.1 | some _ => none) =
      ((List.range board.length).filter fun i => cellAt board i = none).map (· + n) := by
  induction board with
  | nil => intro n; rfl
  | cons c rest ih =>
    intro n
    simp only [List.enumFrom, List.filterMap_cons, List.length_cons, List.range_succ_eq_map,
      List.filter_cons, cellAt_cons_zero]
    cases c with
    | none =>
      simp only [ih (n + 1), List.filter_map, List.map_map]
      simp [Function.comp_def, cellAt_cons_succ, Nat.add_comm, Nat.add_assoc, Nat.add_left_comm]
    | some s =>
      simp only [ih (n + 1), List.filter_map, List.map_map]
      simp [Function.comp_def, cellAt_cons_succ, Nat.add_comm, Nat.add_assoc, Nat.add_left_comm]

/-- `getAvailableMoves` enumerates, in ascending order, exactly the indices of
empty cells. -/
theorem getAvailableMoves_eq (board : List Cell) :
    getAvailableMoves board =
      (List.range board.length).filter fun i => cellAt board i = none := by
  have h := availAux board 0
  simpa [getAvailableMoves, List.enum] using h

theorem mem_getAvailableMoves {board : List Cell} {i : Nat} :
    i ∈ getAvailableMoves board ↔ i < board.length ∧ cellAt board i = none := by
  rw [getAvailableMoves_eq]
  simp only [List.mem_filter, List.mem_range, decide_eq_true_eq]

theorem boardFull_eq_false_iff {board : List Cell} :
    boardFull board = false ↔ getAvailableMoves board ≠ [] := by
  constructor
  · intro h hnil
    have : ∃ c ∈ board, c = none := by
      simpa [boardFull] using List.all_eq_false.mp h
    rcases this with ⟨c, hc, rfl⟩
    rcases List.mem_iff_get.mp hc with ⟨⟨i, hi⟩, hget⟩
    have hcell : cellAt board i = none := by
      have hg : board[i]? = some board[i] := List.getElem?_eq_getElem hi
      have : board[i] = none := by simpa [List.get_eq_getElem] using hget
      simp [cellAt, hg, this]
    have : i ∈ getAvailableMoves board := mem_getAvailableMoves.mpr ⟨hi, hcell⟩
    simp [hnil] at this
  · intro h
    rcases List.exists_mem_of_ne_nil _ h with ⟨i, hi⟩
    rcases mem_getAvailableMoves.mp hi with ⟨hlt, hcell⟩
    apply List.all_eq_false.mpr
    refine ⟨board.get ⟨i, hlt⟩, List.get_mem board _ _, ?_⟩
    have hg : board[i]? = some board[i] := List.getElem?_eq_getElem hlt
    simp only [cellAt, hg, Option.getD_some] at hcell
    simpa [List.get_eq_getElem] using hcell

theorem countEmpty_le_length (board : List Cell) : countEmpty board ≤ board.length :=
  List.countP_le_length _

theorem countEmpty_set_succ {board : List Cell} {i : Nat} (s : Sym)
    (hi : i < board.length) (he : cellAt board i = none) :
    countEmpty (board.set i (some s)) + 1 = countEmpty board := by
  induction board generalizing i with
  | nil => simp at hi
  | cons c rest ih =>
    cases i with
    | zero =>
      rw [cellAt_cons_zero] at he
      subst he
      simp [countEmpty, List.countP_cons]
    | succ j =>
      rw [cellAt_cons_succ] at he
      have hj : j < rest.length := by simpa using hi
      have := ih hj he
      simp only [List.set_cons_succ, countEmpty, List.countP_cons] at *
      omega

theorem countEmpty_pos_of_not_full {board : List Cell} (h : boardFull board = false) :
    0 < countEmpty board := by
  have : ∃ c ∈ board, c = none := by
    simpa [boardFull] using List.all_eq_false.mp h
  rcases this with ⟨c, hc, rfl⟩
  rw [countEmpty, List.countP_pos_iff]
  exact ⟨none, hc, by simp⟩

/-! ### The never-losing predicate `safeF`

`safeF bot hum fuel board botTurn = true` says the `bot` side, moving at
`botTurn` positions, can guarantee that `hum` never completes a win line
(the game reaches a `bot` win or a full board).  It mirrors the branch
structure of `minimaxF`; `minimaxF`'s score is `≥ 0` exactly when `safeF`
holds (proved below), which is the bridge from minimax play to never losing. -/
def safeF (bot hum : Sym) (fuel : Nat) (board : List Cell) (botTurn : Bool) : Bool :=
  let winner := getWinner board
  if winner = some bot then true
  else if winner = some hum then false
  else if boardFull board then true
  else
    match fuel with
    | 0 => false
    | fuel' + 1 =>
      if botTurn then
        (getAvailableMoves board).any fun i => safeF bot hum fuel' (board.set i (some bot)) false
      else
        (getAvailableMoves board).all fun i => safeF bot hum fuel' (board.set i (some hum)) true

/-- `safeF` at full fuel, against the opposing symbol. -/
def safePos (board : List Cell) (bot : Sym) (botTurn : Bool) : Bool :=
  safeF bot bot.other board.length board botTurn

theorem safeF_winner_bot {bot hum : Sym} {fuel : Nat} {board : List Cell} {bt : Bool}
    (hw : getWinner board = some bot) : safeF bot hum fuel board bt = true := by
  rw [safeF.eq_def]; simp [hw]

theorem safeF_winner_hum {bot hum : Sym} {fuel : Nat} {board : List Cell} {bt : Bool}
    (hbh : bot ≠ hum) (hw : getWinner board = some hum) : safeF bot hum fuel board bt = false := by
  rw [safeF.eq_def]; simp [hw, hbh, Ne.symm hbh]

theorem safeF_full {bot hum : Sym} {fuel : Nat} {board : List Cell} {bt : Bool}
    (hw : getWinner board = none) (hf : boardFull board = true) :
    safeF bot hum fuel board bt = true := by
  rw [safeF.eq_def]; simp [hw, hf]

theorem safeF_succ_nonterminal {bot hum : Sym} {fuel : Nat} {board : List Cell} {bt : Bool}
    (hw : getWinner board = none) (hf : boardFull board = false) :
    safeF bot hum (fuel + 1) board bt =
      if bt then
        (getAvailableMoves board).any fun i => safeF bot hum fuel (board.set i (some bot)) false
      else
        (getAvailableMoves board).all fun i => safeF bot hum fuel (board.set i (some hum)) true := by
  conv_lhs => rw [safeF.eq_def]
  simp [hw, hf]

/-- A terminal position is (un)safe independently of whose turn it is and of
the fuel; stated for the real pairing `hum = bot.other`. -/
theorem safeF_terminal_congr (bot : Sym) {fuel₁ fuel₂ : Nat} {board : List Cell}
    {bt₁ bt₂ : Bool} (hterm : getWinner board ≠ none ∨ boardFull board = true) :
    safeF bot bot.other fuel₁ board bt₁ = safeF bot bot.other fuel₂ board bt₂ := by
  rcases hopt : getWinner board with _ | w
  · have hf : boardFull board = true := by
      rcases hterm with hw | hf
      · exact absurd hopt hw
      · exact hf
    rw [safeF_full hopt hf, safeF_full hopt hf]
  · cases bot <;> cases w <;> simp only [Sym.other]
    · rw [safeF_winner_bot hopt, safeF_winner_bot hopt]
    · rw [safeF_winner_hum (by decide) hopt, safeF_winner_hum (by decide) hopt]
    · rw [safeF_winner_hum (by decide) hopt, safeF_winner_hum (by decide) hopt]
    · rw [safeF_winner_bot hopt, safeF_winner_bot hopt]

/-! ### The `reduce` of the JS minimax: `bestMax` / `bestMin` -/

theorem bestMax_mem (m : Nat × Int) (ms : List (Nat × Int)) : bestMax m ms ∈ m :: ms := by
  induction ms generalizing m with
  | nil => simp [bestMax]
  | cons mv ms ih =>
    simp only [bestMax, List.foldl_cons]
    have h := ih (if mv.2 > m.2 then mv else m)
    simp only [bestMax] at h
    rcases List.mem_cons.mp h with h | h
    · rw [h]
      split
      · exact List.mem_cons_of_mem _ (List.mem_cons_self _ _)
      · exact List.mem_cons_self _ _
    · exact List.mem_cons_of_mem _ (List.mem_cons_of_mem _ h)

theorem le_bestMax : ∀ {ms : List (Nat × Int)} {m x : Nat × Int},
    x ∈ m :: ms → x.2 ≤ (bestMax m ms).2 := by
  intro ms
  induction ms with
  | nil =>
    intro m x hx
    rcases List.mem_cons.mp hx with rfl | h
    · simp [bestMax]
    · simp at h
  | cons mv ms ih =>
    intro m x hx
    simp only [bestMax, List.foldl_cons]
    have hmle : m.2 ≤ (if mv.2 > m.2 then mv else m).2 := by
      by_cases hc : mv.2 > m.2
      · simp only [if_pos hc]; exact le_of_lt hc
      · simp only [if_neg hc]; exact le_refl _
    have hmvle : mv.2 ≤ (if mv.2 > m.2 then mv else m).2 := by
      by_cases hc : mv.2 > m.2
      · simp only [if_pos hc]; exact le_refl _
      · simp only [if_neg hc]; exact le_of_not_lt hc
    have hrec : ∀ y ∈ (if mv.2 > m.2 then mv else m) :: ms,
        y.2 ≤ (bestMax (if mv.2 > m.2 then mv else m) ms).2 := fun y hy => ih hy
    have hbase := hrec _ (List.mem_cons_self _ _)
    rcases List.mem_cons.mp hx with rfl | h
    · exact le_trans hmle (by simpa [bestMax] using hbase)
    · rcases List.mem_cons.mp h with rfl | h
      · exact le_trans hmvle (by simpa [bestMax] using hbase)
      · simpa [bestMax] using hrec x (List.mem_cons_of_mem _ h)

theorem bestMin_mem (m : Nat × Int) (ms : List (Nat × Int)) : bestMin m ms ∈ m :: ms := by
  induction ms generalizing m with
  | nil => simp [bestMin]
  | cons mv ms ih =>
    simp only [bestMin, List.foldl_cons]
    have h := ih (if mv.2 < m.2 then mv else m)
    simp only [bestMin] at h
    rcases List.mem_cons.mp h with h | h
    · rw [h]
      split
      · exact List.mem_cons_of_mem _ (List.mem_cons_self _ _)
      · exact List.mem_cons_self _ _
    · exact List.mem_cons_of_mem _ (List.mem_cons_of_mem _ h)

theorem bestMin_le : ∀ {ms : List (Nat × Int)} {m x : Nat × Int},
    x ∈ m :: ms → (bestMin m ms).2 ≤ x.2 := by
  intro ms
  induction ms with
  | nil =>
    intro m x hx
    rcases List.mem_cons.mp hx with rfl | h
    · simp [bestMin]
    · simp at h
  | cons mv ms ih =>
    intro m x hx
    simp only [bestMin, List.foldl_cons]
    have hmle : (if mv.2 < m.2 then mv else m).2 ≤ m.2 := by
      by_cases hc : mv.2 < m.2
      · simp only [if_pos hc]; exact le_of_lt hc
      · simp only [if_neg hc]; exact le_refl _
    have hmvle : (if mv.2 < m.2 then mv else m).2 ≤ mv.2 := by
      by_cases hc : mv.2 < m.2
      · simp only [if_pos hc]; exact le_refl _
      · simp only [if_neg hc]; exact le_of_not_lt hc
    have hrec : ∀ y ∈ (if mv.2 < m.2 then mv else m) :: ms,
        (bestMin (if mv.2 < m.2 then mv else m) ms).2 ≤ y.2 := fun y hy => ih hy
    have hbase := hrec _ (List.mem_cons_self _ _)
    rcases List.mem_cons.mp hx with rfl | h
    · exact le_trans (by simpa [bestMin] using hbase) hmle
    · rcases List.mem_cons.mp h with rfl | h
      · exact le_trans (by simpa [bestMin] using hbase) hmvle
      · simpa [bestMin] using hrec x (List.mem_cons_of_mem _ h)

/-! ### Unfolding lemmas for `minimaxF` -/

theorem minimaxF_winner_bot {bot hum : Sym} {fuel : Nat} {board : List Cell} {current : Sym}
    {depth : Nat} (hw : getWinner board = some bot) :
    minimaxF bot hum fuel board current depth = ⟨none, (10 : Int) - depth⟩ := by
  rw [minimaxF.eq_def]; simp [hw]

theorem minimaxF_winner_hum {bot hum : Sym} {fuel : Nat} {board : List Cell} {current : Sym}
    {depth : Nat} (hbh : bot ≠ hum) (hw : getWinner board = some hum) :
    minimaxF bot hum fuel board current depth = ⟨none, (depth : Int) - 10⟩ := by
  rw [minimaxF.eq_def]; simp [hw, hbh, Ne.symm hbh]

theorem minimaxF_full {bot hum : Sym} {fuel : Nat} {board : List Cell} {current : Sym}
    {depth : Nat} (hw : getWinner board = none) (hf : boardFull board = true) :
    minimaxF bot hum fuel board current depth = ⟨none, 0⟩ := by
  rw [minimaxF.eq_def]; simp [hw, hf]

/-- At a non-terminal node with the bot to move, `minimax` returns some legal
index whose child score it reports, and that score dominates every child. -/
theorem minimaxF_bot_node (bot hum : Sym) (fuel : Nat) (board : List Cell) (depth : Nat)
    (hw : getWinner board = none) (hf : boardFull board = false) :
    (∃ i ∈ getAvailableMoves board,
        (minimaxF bot hum (fuel + 1) board bot depth).index = some i ∧
        (minimaxF bot hum (fuel + 1) board bot depth).score =
          (minimaxF bot hum fuel (board.set i (some bot)) hum (depth + 1)).score) ∧
    ∀ j ∈ getAvailableMoves board,
      (minimaxF bot hum fuel (board.set j (some bot)) hum (depth + 1)).score ≤
        (minimaxF bot hum (fuel + 1) board bot depth).score := by
  have hne : getAvailableMoves board ≠ [] := boardFull_eq_false_iff.mp hf
  rcases heq : getAvailableMoves board with _ | ⟨a, as⟩
  · exact absurd heq hne
  · have hunfold :
        minimaxF bot hum (fuel + 1) board bot depth =
          ⟨some (bestMax ((fun i =>
              (i, (minimaxF bot hum fuel (board.set i (some bot)) hum (depth + 1)).score)) a)
              (as.map fun i =>
              (i, (minimaxF bot hum fuel (board.set i (some bot)) hum (depth + 1)).score))).1,
            (bestMax ((fun i =>
              (i, (minimaxF bot hum fuel (board.set i (some bot)) hum (depth + 1)).score)) a)
              (as.map fun i =>
              (i, (minimaxF bot hum fuel (board.set i (some bot)) hum (depth + 1)).score))).2⟩ := by
      conv_lhs => rw [minimaxF.eq_def]
      simp [hw, hf, heq]
    set f : Nat → Nat × Int := fun i =>
      (i, (minimaxF bot hum fuel (board.set i (some bot)) hum (depth + 1)).score) with hfdef
    have hmem : bestMax (f a) (as.map f) ∈ (a :: as).map f := by
      rw [List.map_cons]
      exact bestMax_mem _ _
    rcases List.mem_map.mp hmem with ⟨i, hi, hfi⟩
    constructor
    · refine ⟨i, hi, ?_, ?_⟩
      · rw [hunfold, ← hfi]
      · rw [hunfold, ← hfi]
    · intro j hj
      have : f j ∈ f a :: as.map f := by
        rw [← List.map_cons]
        exact List.mem_map_of_mem f hj
      have := le_bestMax this
      rw [hunfold]
      exact this

/-- Dual of `minimaxF_bot_node` for the human to move. -/
theorem minimaxF_hum_node (bot hum : Sym) (fuel : Nat) (board : List Cell) (depth : Nat)
    (hbh : hum ≠ bot) (hw : getWinner board = none) (hf : boardFull board = false) :
    (∃ i ∈ getAvailableMoves board,
        (minimaxF bot hum (fuel + 1) board hum depth).index = some i ∧
        (minimaxF bot hum (fuel + 1) board hum depth).score =
          (minimaxF bot hum fuel (board.set i (some hum)) bot (depth + 1)).score) ∧
    ∀ j ∈ getAvailableMoves board,
      (minimaxF bot hum (fuel + 1) board hum depth).score ≤
        (minimaxF bot hum fuel (board.set j (some hum)) bot (depth + 1)).score := by
  have hne : getAvailableMoves board ≠ [] := boardFull_eq_false_iff.mp hf
  rcases heq : getAvailableMoves board with _ | ⟨a, as⟩
  · exact absurd heq hne
  · have hunfold :
        minimaxF bot hum (fuel + 1) board hum depth =
          ⟨some (bestMin ((fun i =>
              (i, (minimaxF bot hum fuel (board.set i (some hum)) bot (depth + 1)).score)) a)
              (as.map fun i =>
              (i, (minimaxF bot hum fuel (board.set i (some hum)) bot (depth + 1)).score))).1,
            (bestMin ((fun i =>
              (i, (minimaxF bot hum fuel (board.set i (some hum)) bot (depth + 1)).score)) a)
              (as.map fun i =>
              (i, (minimaxF bot hum fuel (board.set i (some hum)) bot (depth + 1)).score))).2⟩ := by
      conv_lhs => rw [minimaxF.eq_def]
      simp [hw, hf, heq, hbh]
    set f : Nat → Nat × Int := fun i =>
      (i, (minimaxF bot hum fuel (board.set i (some hum)) bot (depth + 1)).score) with hfdef
    have hmem : bestMin (f a) (as.map f) ∈ (a :: as).map f := by
      rw [List.map_cons]
      exact bestMin_mem _ _
    rcases List.mem_map.mp hmem with ⟨i, hi, hfi⟩
    constructor
    · refine ⟨i, hi, ?_, ?_⟩
      · rw [hunfold, ← hfi]
      · rw [hunfold, ← hfi]
    · intro j hj
      have : f j ∈ f a :: as.map f := by
        rw [← List.map_cons]
        exact List.mem_map_of_mem f hj
      have := bestMin_le this
      rw [hunfold]
      exact this

/-! ### Minimax score sign vs. safety -/

theorem beq_self_sym (s : Sym) : (s == s) = true := by cases s <;> rfl

theorem other_beq_eq_false (bot : Sym) : (bot.other == bot) = false := by
  cases bot <;> rfl

theorem sym_eq_bot_or_other (current bot : Sym) : current = bot ∨ current = bot.other := by
  cases current <;> cases bot <;> simp [Sym.other]

/-- The central bridge: the minimax score is non-negative exactly when the
position is safe for the bot.  Fuel must cover the empty cells and the total
ply count must fit in a 3×3 game (`depth + countEmpty ≤ 9`), which makes any
win score positive and any loss score negative. -/
theorem minimaxF_score_nonneg_iff_safeF (bot : Sym) :
    ∀ (fuel : Nat) (board : List Cell) (current : Sym) (depth : Nat),
      countEmpty board ≤ fuel → depth + countEmpty board ≤ 9 →
      (0 ≤ (minimaxF bot bot.other fuel board current depth).score ↔
        safeF bot bot.other fuel board (current == bot) = true) := by
  intro fuel
  induction fuel with
  | zero =>
    intro board current depth hfuel hd
    have hzero : countEmpty board = 0 := Nat.le_zero.mp hfuel
    have hdep : depth ≤ 9 := by omega
    rcases hopt : getWinner board with _ | w
    · have hful : boardFull board = true := by
        by_contra hful
        have := countEmpty_pos_of_not_full (Bool.eq_false_iff.mpr (by simpa using hful))
        omega
      rw [minimaxF_full hopt hful, safeF_full hopt hful]
      simp
    · rcases sym_eq_bot_or_other w bot with rfl | rfl
      · rw [minimaxF_winner_bot hopt, safeF_winner_bot hopt]
        simp only [iff_true]
        omega
      · rw [minimaxF_winner_hum (Ne.symm (Sym.other_ne bot)) hopt,
          safeF_winner_hum (Ne.symm (Sym.other_ne bot)) hopt]
        simp only [Bool.false_eq_true, iff_false, not_le]
        omega
  | succ fuel ih =>
    intro board current depth hfuel hd
    have hcle : countEmpty board ≤ 9 := by omega
    rcases hopt : getWinner board with _ | w
    · by_cases hful : boardFull board = true
      · rw [minimaxF_full hopt hful, safeF_full hopt hful]
        simp
      · have hff : boardFull board = false := Bool.eq_false_iff.mpr hful
        have hpos : 0 < countEmpty board := countEmpty_pos_of_not_full hff
        have hdep : depth ≤ 8 := by omega
        rcases sym_eq_bot_or_other current bot with rfl | rfl
        · -- bot to move
          obtain ⟨⟨i, hi, hidx, hsc⟩, hub⟩ :=
            minimaxF_bot_node current current.other fuel board depth hopt hff
          rw [safeF_succ_nonterminal hopt hff]
          simp only [beq_self_sym, if_true]
          have hchild : ∀ j ∈ getAvailableMoves board,
              (0 ≤ (minimaxF current current.other fuel (board.set j (some current))
                  current.other (depth + 1)).score ↔
                safeF current current.other fuel (board.set j (some current)) false = true) := by
            intro j hj
            rcases mem_getAvailableMoves.mp hj with ⟨hlt, hcell⟩
            have hcnt := countEmpty_set_succ current hlt hcell
            have h1 : countEmpty (board.set j (some current)) ≤ fuel := by omega
            have h2 : depth + 1 + countEmpty (board.set j (some current)) ≤ 9 := by omega
            have := ih (board.set j (some current)) current.other (depth + 1) h1 h2
            rwa [other_beq_eq_false] at this
          constructor
          · intro hscore
            refine List.any_eq_true.mpr ⟨i, hi, ?_⟩
            exact (hchild i hi).mp (by rw [← hsc]; exact hscore)
          · intro hany
            rcases List.any_eq_true.mp hany with ⟨j, hj, hsafe⟩
            have := (hchild j hj).mpr hsafe
            exact le_trans this (hub j hj)
        · -- human to move
          obtain ⟨⟨i, hi, hidx, hsc⟩, hlb⟩ :=
            minimaxF_hum_node bot bot.other fuel board depth (Sym.other_ne bot) hopt hff
          rw [safeF_succ_nonterminal hopt hff]
          rw [other_beq_eq_false]
          simp only [Bool.false_eq_true, if_false]
          have hchild : ∀ j ∈ getAvailableMoves board,
              (0 ≤ (minimaxF bot bot.other fuel (board.set j (some bot.other))
                  bot (depth + 1)).score ↔
                safeF bot bot.other fuel (board.set j (some bot.other)) true = true) := by
            intro j hj
            rcases mem_getAvailableMoves.mp hj with ⟨hlt, hcell⟩
            have hcnt := countEmpty_set_succ bot.other hlt hcell
            have h1 : countEmpty (board.set j (some bot.other)) ≤ fuel := by omega
            have h2 : depth + 1 + countEmpty (board.set j (some bot.other)) ≤ 9 := by omega
            have := ih (board.set j (some bot.other)) bot (depth + 1) h1 h2
            rwa [beq_self_sym] at this
          constructor
          · intro hscore
            refine List.all_eq_true.mpr ?_
            intro j hj
            exact (hchild j hj).mp (le_trans hscore (hlb j hj))
          · intro hall
            have hsafe := List.all_eq_true.mp hall i hi
            have := (hchild i hi).mpr hsafe
            rw [hsc]
            exact this
    · rcases sym_eq_bot_or_other w bot with rfl | rfl
      · rw [minimaxF_winner_bot hopt, safeF_winner_bot hopt]
        simp only [iff_true]
        omega
      · rw [minimaxF_winner_hum (Ne.symm (Sym.other_ne bot)) hopt,
          safeF_winner_hum (Ne.symm (Sym.other_ne bot)) hopt]
        simp only [Bool.false_eq_true, iff_false, not_le]
        omega

theorem any_congr_mem {α : Type} {l : List α} {f g : α → Bool}
    (h : ∀ a ∈ l, f a = g a) : l.any f = l.any g := by
  induction l with
  | nil => rfl
  | cons a l ih =>
    simp only [List.any_cons, h a (List.mem_cons_self _ _),
      ih fun b hb => h b (List.mem_cons_of_mem _ hb)]

theorem all_congr_mem {α : Type} {l : List α} {f g : α → Bool}
    (h : ∀ a ∈ l, f a = g a) : l.all f = l.all g := by
  induction l with
  | nil => rfl
  | cons a l ih =>
    simp only [List.all_cons, h a (List.mem_cons_self _ _),
      ih fun b hb => h b (List.mem_cons_of_mem _ hb)]

/-- `safeF` does not depend on the exact fuel, provided it covers the number
of empty cells. -/
theorem safeF_fuel_congr (bot : Sym) :
    ∀ (f₁ : Nat) {f₂ : Nat} {board : List Cell} {bt : Bool},
      countEmpty board ≤ f₁ → countEmpty board ≤ f₂ →
      safeF bot bot.other f₁ board bt = safeF bot bot.other f₂ board bt := by
  intro f₁
  induction f₁ with
  | zero =>
    intro f₂ board bt h1 h2
    have hzero : countEmpty board = 0 := Nat.le_zero.mp h1
    have hful : boardFull board = true := by
      by_contra hful
      have := countEmpty_pos_of_not_full (Bool.eq_false_iff.mpr (by simpa using hful))
      omega
    exact safeF_terminal_congr bot (Or.inr hful)
  | succ f₁ ih =>
    intro f₂ board bt h1 h2
    rcases hopt : getWinner board with _ | w
    · by_cases hful : boardFull board = true
      · exact safeF_terminal_congr bot (Or.inr hful)
      · have hff : boardFull board = false := Bool.eq_false_iff.mpr hful
        have hpos : 0 < countEmpty board := countEmpty_pos_of_not_full hff
        rcases f₂ with _ | f₂
        · omega
        · rw [safeF_succ_nonterminal hopt hff, safeF_succ_nonterminal hopt hff]
          have hstep : ∀ (s : Sym) (bt' : Bool) (j : Nat), j ∈ getAvailableMoves board →
              safeF bot bot.other f₁ (board.set j (some s)) bt' =
                safeF bot bot.other f₂ (board.set j (some s)) bt' := by
            intro s bt' j hj
            rcases mem_getAvailableMoves.mp hj with ⟨hlt, hcell⟩
            have hcnt := countEmpty_set_succ s hlt hcell
            exact ih (by omega) (by omega)
          cases bt
          · rw [if_neg (by simp), if_neg (by simp)]
            exact all_congr_mem fun j hj => hstep bot.other true j hj
          · rw [if_pos rfl, if_pos rfl]
            exact any_congr_mem fun j hj => hstep bot false j hj
    · exact safeF_terminal_congr bot (Or.inl (by simp [hopt]))

/-! ### Bitmask mirror of the board functions

The list-based functions above are the faithful embedding; the `mask…`
versions below compute the same values on a pair of bitmasks (`bit i` of
`botM` / `humM` says cell `i` holds the bot's / the opponent's symbol).  They
exist purely so that concrete positions can be evaluated fast by the kernel;
each is proved equal to its list counterpart. -/

/-- Bitmask of the cells holding symbol `s` (bit `i` ↔ cell `i`). -/
def encodeMask (board : List Cell) (s : Sym) : Nat :=
  board.foldr (fun c acc => 2 * acc + (if c = some s then 1 else 0)) 0

theorem encodeMask_testBit (s : Sym) : ∀ (board : List Cell) (i : Nat),
    (encodeMask board s).testBit i = decide (cellAt board i = some s) := by
  intro board
  induction board with
  | nil =>
    intro i
    simp [encodeMask, cellAt_nil, Nat.zero_testBit]
  | cons c rest ih =>
    intro i
    have hunf : encodeMask (c :: rest) s =
        2 * encodeMask rest s + (if c = some s then 1 else 0) := rfl
    cases i with
    | zero =>
      rw [hunf, Nat.testBit_zero, cellAt_cons_zero]
      by_cases hc : c = some s
      · rw [if_pos hc]
        have h1 : (2 * encodeMask rest s + 1) % 2 = 1 := by omega
        simp [h1, hc]
      · rw [if_neg hc]
        have h0 : (2 * encodeMask rest s + 0) % 2 = 0 := by omega
        simp [h0, hc]
    | succ j =>
      rw [hunf, Nat.testBit_add_one, cellAt_cons_succ]
      have hdiv : (2 * encodeMask rest s + (if c = some s then 1 else 0)) / 2 =
          encodeMask rest s := by
        split <;> omega
      rw [hdiv, ih j]

theorem cellAt_set_self {board : List Cell} {i : Nat} (v : Cell) (hi : i < board.length) :
    cellAt (board.set i v) i = v := by
  simp [cellAt, List.getElem?_set, hi]

theorem cellAt_set_ne {board : List Cell} {i j : Nat} (v : Cell) (hne : i ≠ j) :
    cellAt (board.set i v) j = cellAt board j := by
  simp [cellAt, List.getElem?_set_ne hne]

/-- Writing symbol `s` into cell `i` sets bit `i` of the `s`-mask. -/
theorem encodeMask_set_same (board : List Cell) (i : Nat) (s : Sym)
    (hi : i < board.length) :
    encodeMask (board.set i (some s)) s = encodeMask board s ||| 2 ^ i := by
  apply Nat.eq_of_testBit_eq
  intro j
  rw [encodeMask_testBit, Nat.testBit_lor, encodeMask_testBit]
  by_cases hij : j = i
  · subst hij
    rw [cellAt_set_self _ hi]
    simp [Nat.testBit_two_pow_self]
  · rw [cellAt_set_ne _ (Ne.symm hij), Nat.testBit_two_pow_of_ne (Ne.symm hij)]
    simp

/-- Writing symbol `s` into an empty cell leaves the other symbol's mask
unchanged. -/
theorem encodeMask_set_other (board : List Cell) (i : Nat) (s t : Sym)
    (hi : i < board.length) (hcell : cellAt board i = none) (hss : s ≠ t) :
    encodeMask (board.set i (some s)) t = encodeMask board t := by
  apply Nat.eq_of_testBit_eq
  intro j
  rw [encodeMask_testBit, encodeMask_testBit]
  by_cases hij : j = i
  · subst hij
    rw [cellAt_set_self _ hi, hcell]
    simp [hss]
  · rw [cellAt_set_ne _ (Ne.symm hij)]

/-- One win line is fully occupied in mask `m`. -/
def lineTest (m : Nat) (line : Nat × Nat × Nat) : Bool :=
  m.testBit line.1 && m.testBit line.2.1 && m.testBit line.2.2

/-- Mask mirror of `getWinner`: `some true` = bot win line, `some false` =
opponent win line, in the same line order. -/
def maskWinner (botM humM : Nat) : Option Bool :=
  winLines.foldr
    (fun line acc =>
      if lineTest botM line then some true
      else if lineTest humM line then some false
      else acc)
    none

theorem maskWinner_eq (bot : Sym) (board : List Cell) :
    maskWinner (encodeMask board bot) (encodeMask board bot.other) =
      (getWinner board).map fun w => w == bot := by
  have haux : ∀ lines : List (Nat × Nat × Nat),
      (lines.foldr
        (fun line acc =>
          if lineTest (encodeMask board bot) line then some true
          else if lineTest (encodeMask board bot.other) line then some false
          else acc)
        none) =
      (lines.foldr
        (fun line acc =>
          match cellAt board line.1 with
          | some s =>
              if cellAt board line.2.1 = some s ∧ cellAt board line.2.2 = some s then some s
              else acc
          | none => acc)
        none).map (fun w => w == bot) := by
    intro lines
    induction lines with
    | nil => rfl
    | cons line rest ih =>
      simp only [List.foldr_cons]
      rw [show lineTest (encodeMask board bot) line =
            (decide (cellAt board line.1 = some bot) &&
             decide (cellAt board line.2.1 = some bot) &&
             decide (cellAt board line.2.2 = some bot)) by
          simp [lineTest, encodeMask_testBit],
        show lineTest (encodeMask board bot.other) line =
            (decide (cellAt board line.1 = some bot.other) &&
             decide (cellAt board line.2.1 = some bot.other) &&
             decide (cellAt board line.2.2 = some bot.other)) by
          simp [lineTest, encodeMask_testBit]]
      rcases hca : cellAt board line.1 with _ | s
      · simp [hca, ih]
      · rcases sym_eq_bot_or_other s bot with hs | hs
        · subst hs
          by_cases hbc : cellAt board line.2.1 = some s ∧ cellAt board line.2.2 = some s
          · simp [hbc.1, hbc.2, beq_self_sym]
          · have hfull : (decide ((some s : Cell) = some s) &&
                decide (cellAt board line.2.1 = some s) &&
                decide (cellAt board line.2.2 = some s)) = false := by
              rcases not_and_or.mp hbc with h | h <;> simp [h]
            have hsecond : (decide ((some s : Cell) = some s.other) &&
                decide (cellAt board line.2.1 = some s.other) &&
                decide (cellAt board line.2.2 = some s.other)) = false := by
              simp [Ne.symm (Sym.other_ne s)]
            rw [hfull, hsecond]
            simp only [Bool.false_eq_true, if_false]
            rw [if_neg hbc]
            exact ih
        · subst hs
          by_cases hbc : cellAt board line.2.1 = some bot.other ∧
              cellAt board line.2.2 = some bot.other
          · have hfull : (decide ((some bot.other : Cell) = some bot) &&
                decide (cellAt board line.2.1 = some bot) &&
                decide (cellAt board line.2.2 = some bot)) = false := by
              simp [Sym.other_ne bot]
            rw [hfull]
            simp [hbc.1, hbc.2, other_beq_eq_false]
          · have hfull : (decide ((some bot.other : Cell) = some bot) &&
                decide (cellAt board line.2.1 = some bot) &&
                decide (cellAt board line.2.2 = some bot)) = false := by
              simp [Sym.other_ne bot]
            have hsecond : (decide ((some bot.other : Cell) = some bot.other) &&
                decide (cellAt board line.2.1 = some bot.other) &&
                decide (cellAt board line.2.2 = some bot.other)) = false := by
              rcases not_and_or.mp hbc with h | h <;> simp [h]
            rw [hfull, hsecond]
            simp only [Bool.false_eq_true, if_false]
            rw [if_neg hbc]
            exact ih
  exact haux winLines

/-- Mask mirror of `getAvailableMoves` (boards always have 9 cells). -/
def maskAvail (botM humM : Nat) : List Nat :=
  (List.range 9).filter fun i => !(botM.testBit i || humM.testBit i)

theorem getAvailableMoves_eq_maskAvail (bot : Sym) {board : List Cell}
    (hlen : board.length = 9) :
    getAvailableMoves board =
      maskAvail (encodeMask board bot) (encodeMask board bot.other) := by
  rw [getAvailableMoves_eq, hlen, maskAvail]
  apply List.filter_congr
  intro i _
  rw [show (encodeMask board bot).testBit i = decide (cellAt board i = some bot) from
      encodeMask_testBit bot board i,
    show (encodeMask board bot.other).testBit i = decide (cellAt board i = some bot.other) from
      encodeMask_testBit bot.other board i]
  rcases hc : cellAt board i with _ | s
  · simp
  · rcases sym_eq_bot_or_other s bot with hs | hs <;> subst hs
    · simp
    · simp [Ne.symm (Sym.other_ne bot)]

theorem boardFull_eq_isEmpty (board : List Cell) :
    boardFull board = (getAvailableMoves board).isEmpty := by
  cases h : boardFull board
  · have hne := boardFull_eq_false_iff.mp h
    rcases havail : getAvailableMoves board with _ | ⟨a, as⟩
    · exact absurd havail hne
    · rfl
  · rcases havail : getAvailableMoves board with _ | ⟨a, as⟩
    · rfl
    · have : boardFull board = false := boardFull_eq_false_iff.mpr (by simp [havail])
      rw [h] at this
      cases this

/-- Mask mirror of `safeF`. -/
def maskSafeF (fuel : Nat) (botM humM : Nat) (botTurn : Bool) : Bool :=
  let w := maskWinner botM humM
  if w = some true then true
  else if w = some false then false
  else if (maskAvail botM humM).isEmpty then true
  else
    match fuel with
    | 0 => false
    | fuel' + 1 =>
      if botTurn then
        (maskAvail botM humM).any fun i => maskSafeF fuel' (botM ||| 2 ^ i) humM false
      else
        (maskAvail botM humM).all fun i => maskSafeF fuel' botM (humM ||| 2 ^ i) true

theorem safeF_eq_maskSafeF (bot : Sym) :
    ∀ (fuel : Nat) (board : List Cell) (bt : Bool), board.length = 9 →
      safeF bot bot.other fuel board bt =
        maskSafeF fuel (encodeMask board bot) (encodeMask board bot.other) bt := by
  intro fuel
  induction fuel with
  | zero =>
    intro board bt hlen
    rw [safeF.eq_def, maskSafeF.eq_def, maskWinner_eq bot board]
    rcases hopt : getWinner board with _ | w
    · simp only [Option.map_none']
      rw [← getAvailableMoves_eq_maskAvail bot hlen, ← boardFull_eq_isEmpty]
      simp [hopt]
    · rcases sym_eq_bot_or_other w bot with hs | hs <;> subst hs
      · simp [hopt, beq_self_sym]
      · simp [hopt, other_beq_eq_false, Ne.symm (Sym.other_ne bot), Sym.other_ne bot]
  | succ fuel ih =>
    intro board bt hlen
    rw [safeF.eq_def, maskSafeF.eq_def, maskWinner_eq bot board]
    rcases hopt : getWinner board with _ | w
    · simp only [Option.map_none']
      rw [← getAvailableMoves_eq_maskAvail bot hlen, ← boardFull_eq_isEmpty]
      by_cases hful : boardFull board = true
      · simp [hopt, hful]
      · have hff : boardFull board = false := Bool.eq_false_iff.mpr hful
        simp only [hopt, hff]
        have hany : ((getAvailableMoves board).any fun i =>
              safeF bot bot.other fuel (board.set i (some bot)) false) =
            ((getAvailableMoves board).any fun i =>
              maskSafeF fuel (encodeMask board bot ||| 2 ^ i) (encodeMask board bot.other)
                false) := by
          apply any_congr_mem
          intro j hj
          rcases mem_getAvailableMoves.mp hj with ⟨hlt, hcell⟩
          rw [ih (board.set j (some bot)) false (by simp [hlen]),
            encodeMask_set_same board j bot hlt,
            encodeMask_set_other board j bot bot.other hlt hcell (Sym.other_ne bot).symm]
        have hall : ((getAvailableMoves board).all fun i =>
              safeF bot bot.other fuel (board.set i (some bot.other)) true) =
            ((getAvailableMoves board).all fun i =>
              maskSafeF fuel (encodeMask board bot) (encodeMask board bot.other ||| 2 ^ i)
                true) := by
          apply all_congr_mem
          intro j hj
          rcases mem_getAvailableMoves.mp hj with ⟨hlt, hcell⟩
          rw [ih (board.set j (some bot.other)) true (by simp [hlen]),
            encodeMask_set_other board j bot.other bot hlt hcell (Sym.other_ne bot),
            encodeMask_set_same board j bot.other hlt]
        cases bt
        · simp only [Bool.false_eq_true, if_false]
          exact hall
        · simp only [if_pos rfl]
          exact hany
    · rcases sym_eq_bot_or_other w bot with hs | hs <;> subst hs
      · simp [hopt, beq_self_sym]
      · simp [hopt, other_beq_eq_false, Ne.symm (Sym.other_ne bot), Sym.other_ne bot]

/-! ### The pruned search `safeSearch`

`maskSafeF` tests the win lines in source order through `maskWinner`; that
is needed to mirror `getWinner` on arbitrary boards, but it is slow to
evaluate.  On boards where at least one side has no line at all — which is
every position reachable by alternating play, since a move can only create
lines for the mover and the search stops once a line exists — the order is
irrelevant.  `safeSearch` exploits that, and also tries centre and corners
first, which prunes the ∃-branches; it is what the kernel actually runs. -/

/-- `m` contains some fully occupied win line. -/
def hasLineMask (m : Nat) : Bool := winLines.any fun line => lineTest m line

/-- Unrolled form of `hasLineMask`: the same 8 win lines as direct mask
compares (`7 = {0,1,2}`, `56 = {3,4,5}`, …); cheap for the kernel.  Agrees
with `hasLineMask` on all 9-cell masks (`m < 512`), proved by enumeration. -/
def hasLineFast (m : Nat) : Bool :=
  (m &&& 7 == 7) || (m &&& 56 == 56) || (m &&& 448 == 448) || (m &&& 73 == 73) ||
  (m &&& 146 == 146) || (m &&& 292 == 292) || (m &&& 273 == 273) || (m &&& 84 == 84)

theorem hasLine_eq_all :
    ((List.range 512).all fun m => hasLineFast m == hasLineMask m) = true := by decide

theorem hasLine_eq {m : Nat} (hm : m < 512) : hasLineFast m = hasLineMask m := by
  have h := List.all_eq_true.mp hasLine_eq_all m (List.mem_range.mpr hm)
  simpa using h

theorem encodeMask_lt (s : Sym) : ∀ board : List Cell, encodeMask board s < 2 ^ board.length := by
  intro board
  induction board with
  | nil => simp [encodeMask]
  | cons c rest ih =>
    have hstep : encodeMask (c :: rest) s =
        2 * encodeMask rest s + (if c = some s then 1 else 0) := rfl
    rw [hstep, List.length_cons, pow_succ]
    split <;> omega

theorem encodeMask_lt_512 {board : List Cell} (s : Sym) (hlen : board.length = 9) :
    encodeMask board s < 512 := by
  have := encodeMask_lt s board
  rw [hlen] at this
  exact this

theorem mem_maskAvail_lt {botM humM i : Nat} (h : i ∈ maskAvail botM humM) : i < 9 :=
  List.mem_range.mp (List.mem_filter.mp h).1

theorem mask_step_lt {botM i : Nat} (hb : botM < 512) (hi : i < 9) : botM ||| 2 ^ i < 512 := by
  have h2 : (2 : Nat) ^ i < 2 ^ 9 := by interval_cases i <;> decide
  exact Nat.or_lt_two_pow hb h2

/-- Cell indices, centre and corners first; a permutation of `0…8`. -/
def priorityMoves : List Nat := [4, 0, 2, 6, 8, 1, 3, 5, 7]

/-- Free cells in priority order. -/
def availOrd (botM humM : Nat) : List Nat :=
  priorityMoves.filter fun i => !(botM.testBit i || humM.testBit i)

theorem maskWinnerAux_none (botM humM : Nat) :
    ∀ lines : List (Nat × Nat × Nat),
      (∀ l ∈ lines, lineTest botM l = false) → (∀ l ∈ lines, lineTest humM l = false) →
      lines.foldr
        (fun line acc =>
          if lineTest botM line then some true
          else if lineTest humM line then some false
          else acc)
        none = none := by
  intro lines hb hh
  induction lines with
  | nil => rfl
  | cons line rest ih =>
    rw [List.foldr_cons, if_neg (by simp [hb line (List.mem_cons_self _ _)]),
      if_neg (by simp [hh line (List.mem_cons_self _ _)])]
    exact ih (fun l hl => hb l (List.mem_cons_of_mem _ hl))
      (fun l hl => hh l (List.mem_cons_of_mem _ hl))

theorem maskWinnerAux_true (botM humM : Nat) :
    ∀ lines : List (Nat × Nat × Nat),
      (∃ l ∈ lines, lineTest botM l = true) → (∀ l ∈ lines, lineTest humM l = false) →
      lines.foldr
        (fun line acc =>
          if lineTest botM line then some true
          else if lineTest humM line then some false
          else acc)
        none = some true := by
  intro lines hb hh
  induction lines with
  | nil => simp at hb
  | cons line rest ih =>
    rw [List.foldr_cons]
    by_cases hl : lineTest botM line = true
    · rw [if_pos hl]
    · rw [if_neg (by simp [hl]), if_neg (by simp [hh line (List.mem_cons_self _ _)])]
      rcases hb with ⟨l, hmem, htest⟩
      rcases List.mem_cons.mp hmem with rfl | hmem'
      · exact absurd htest hl
      · exact ih ⟨l, hmem', htest⟩ fun l' hl' => hh l' (List.mem_cons_of_mem _ hl')

theorem maskWinnerAux_false (botM humM : Nat) :
    ∀ lines : List (Nat × Nat × Nat),
      (∀ l ∈ lines, lineTest botM l = false) → (∃ l ∈ lines, lineTest humM l = true) →
      lines.foldr
        (fun line acc =>
          if lineTest botM line then some true
          else if lineTest humM line then some false
          else acc)
        none = some false := by
  intro lines hb hh
  induction lines with
  | nil => simp at hh
  | cons line rest ih =>
    rw [List.foldr_cons, if_neg (by simp [hb line (List.mem_cons_self _ _)])]
    by_cases hl : lineTest humM line = true
    · rw [if_pos hl]
    · rw [if_neg (by simp [hl])]
      rcases hh with ⟨l, hmem, htest⟩
      rcases List.mem_cons.mp hmem with rfl | hmem'
      · exact absurd htest hl
      · exact ih (fun l' hl' => hb l' (List.mem_cons_of_mem _ hl')) ⟨l, hmem', htest⟩

theorem maskWinner_none_of {botM humM : Nat} (hb : hasLineMask botM = false)
    (hh : hasLineMask humM = false) : maskWinner botM humM = none := by
  rw [hasLineMask, List.any_eq_false] at hb hh
  exact maskWinnerAux_none botM humM winLines
    (fun l hl => by simpa using hb l hl) (fun l hl => by simpa using hh l hl)

theorem maskWinner_some_true_of {botM humM : Nat} (hb : hasLineMask botM = true)
    (hh : hasLineMask humM = false) : maskWinner botM humM = some true := by
  rw [hasLineMask, List.any_eq_true] at hb
  rw [hasLineMask, List.any_eq_false] at hh
  exact maskWinnerAux_true botM humM winLines hb (fun l hl => by simpa using hh l hl)

theorem maskWinner_some_false_of {botM humM : Nat} (hb : hasLineMask botM = false)
    (hh : hasLineMask humM = true) : maskWinner botM humM = some false := by
  rw [hasLineMask, List.any_eq_false] at hb
  rw [hasLineMask, List.any_eq_true] at hh
  exact maskWinnerAux_false botM humM winLines (fun l hl => by simpa using hb l hl) hh

theorem mem_availOrd {botM humM : Nat} {i : Nat} :
    i ∈ availOrd botM humM ↔ i ∈ maskAvail botM humM := by
  rw [availOrd, maskAvail]
  simp only [List.mem_filter]
  constructor
  · rintro ⟨hmem, htest⟩
    exact ⟨by fin_cases hmem <;> decide, htest⟩
  · rintro ⟨hmem, htest⟩
    refine ⟨?_, htest⟩
    have : i < 9 := List.mem_range.mp hmem
    interval_cases i <;> decide

theorem availOrd_isEmpty_eq {botM humM : Nat} :
    (availOrd botM humM).isEmpty = (maskAvail botM humM).isEmpty := by
  rcases h1 : availOrd botM humM with _ | ⟨a, as⟩
  · rcases h2 : maskAvail botM humM with _ | ⟨b, bs⟩
    · rfl
    · have : b ∈ availOrd botM humM := mem_availOrd.mpr (by rw [h2]; exact List.mem_cons_self _ _)
      rw [h1] at this
      simp at this
  · have : a ∈ maskAvail botM humM := mem_availOrd.mp (by rw [h1]; exact List.mem_cons_self _ _)
    rcases h2 : maskAvail botM humM with _ | ⟨b, bs⟩
    · rw [h2] at this
      simp at this
    · rfl

/-- The pruned search actually evaluated by the kernel. -/
def safeSearch (fuel : Nat) (botM humM : Nat) (botTurn : Bool) : Bool :=
  if hasLineFast botM then true
  else if hasLineFast humM then false
  else if (availOrd botM humM).isEmpty then true
  else
    match fuel with
    | 0 => false
    | fuel' + 1 =>
      if botTurn then
        (availOrd botM humM).any fun i => safeSearch fuel' (botM ||| 2 ^ i) humM false
      else
        (availOrd botM humM).all fun i => safeSearch fuel' botM (humM ||| 2 ^ i) true

theorem maskSafeF_eq_safeSearch :
    ∀ (fuel : Nat) (botM humM : Nat) (bt : Bool),
      botM < 512 → humM < 512 →
      hasLineMask botM = false ∨ hasLineMask humM = false →
      maskSafeF fuel botM humM bt = safeSearch fuel botM humM bt := by
  intro fuel
  induction fuel with
  | zero =>
    intro botM humM bt hbm hhm hnb
    rcases hb : hasLineMask botM with _ | _ <;> rcases hh : hasLineMask humM with _ | _
    · rw [maskSafeF, safeSearch, maskWinner_none_of hb hh]
      simp [hasLine_eq hbm, hasLine_eq hhm, hb, hh, availOrd_isEmpty_eq]
    · rw [maskSafeF, safeSearch, maskWinner_some_false_of hb hh]
      simp [hasLine_eq hbm, hasLine_eq hhm, hb, hh]
    · rw [maskSafeF, safeSearch, maskWinner_some_true_of hb hh]
      simp [hasLine_eq hbm, hb]
    · rw [hb] at hnb; rw [hh] at hnb
      rcases hnb with h | h <;> cases h
  | succ fuel ih =>
    intro botM humM bt hbm hhm hnb
    rcases hb : hasLineMask botM with _ | _ <;> rcases hh : hasLineMask humM with _ | _
    · have hany :
          ((maskAvail botM humM).any fun i => maskSafeF fuel (botM ||| 2 ^ i) humM false) =
            ((availOrd botM humM).any fun i => safeSearch fuel (botM ||| 2 ^ i) humM false) := by
        rcases h1 : (maskAvail botM humM).any fun i => maskSafeF fuel (botM ||| 2 ^ i) humM false
        · rcases h2 : (availOrd botM humM).any fun i =>
              safeSearch fuel (botM ||| 2 ^ i) humM false
          · rfl
          · rcases List.any_eq_true.mp h2 with ⟨i, hi, hsafe⟩
            have hilt := mem_maskAvail_lt (mem_availOrd.mp hi)
            rw [← ih (botM ||| 2 ^ i) humM false (mask_step_lt hbm hilt) hhm
              (Or.inr hh)] at hsafe
            have : (maskAvail botM humM).any
                (fun i => maskSafeF fuel (botM ||| 2 ^ i) humM false) = true :=
              List.any_eq_true.mpr ⟨i, mem_availOrd.mp hi, hsafe⟩
            rw [h1] at this
            cases this
        · rcases List.any_eq_true.mp h1 with ⟨i, hi, hsafe⟩
          have hilt := mem_maskAvail_lt hi
          rw [ih (botM ||| 2 ^ i) humM false (mask_step_lt hbm hilt) hhm
            (Or.inr hh)] at hsafe
          exact (List.any_eq_true.mpr ⟨i, mem_availOrd.mpr hi, hsafe⟩).symm
      have hall :
          ((maskAvail botM humM).all fun i => maskSafeF fuel botM (humM ||| 2 ^ i) true) =
            ((availOrd botM humM).all fun i => safeSearch fuel botM (humM ||| 2 ^ i) true) := by
        rcases h1 : (maskAvail botM humM).all fun i => maskSafeF fuel botM (humM ||| 2 ^ i) true
        · rcases h2 : (availOrd botM humM).all fun i =>
              safeSearch fuel botM (humM ||| 2 ^ i) true
          · rfl
          · have : (maskAvail botM humM).all
                (fun i => maskSafeF fuel botM (humM ||| 2 ^ i) true) = true := by
              refine List.all_eq_true.mpr fun i hi => ?_
              rw [ih botM (humM ||| 2 ^ i) true hbm
                (mask_step_lt hhm (mem_maskAvail_lt hi)) (Or.inl hb)]
              exact List.all_eq_true.mp h2 i (mem_availOrd.mpr hi)
            rw [h1] at this
            cases this
        · refine (List.all_eq_true.mpr fun i hi => ?_).symm
          have hilt := mem_maskAvail_lt (mem_availOrd.mp hi)
          rw [← ih botM (humM ||| 2 ^ i) true hbm (mask_step_lt hhm hilt) (Or.inl hb)]
          exact List.all_eq_true.mp h1 i (mem_availOrd.mp hi)
      rw [maskSafeF, safeSearch, maskWinner_none_of hb hh]
      simp only [hasLine_eq hbm, hasLine_eq hhm, hb, hh, Bool.false_eq_true, if_false,
        availOrd_isEmpty_eq]
      by_cases hemp : (maskAvail botM humM).isEmpty = true
      · simp [hemp]
      · have hemp' : (maskAvail botM humM).isEmpty = false := Bool.eq_false_iff.mpr hemp
        simp only [hemp', Bool.false_eq_true, if_false]
        cases bt
        · simpa using hall
        · simpa using hany
    · rw [maskSafeF, safeSearch, maskWinner_some_false_of hb hh]
      simp [hasLine_eq hbm, hasLine_eq hhm, hb, hh]
    · rw [maskSafeF, safeSearch, maskWinner_some_true_of hb hh]
      simp [hasLine_eq hbm, hb]
    · rw [hb] at hnb; rw [hh] at hnb
      rcases hnb with h | h <;> cases h

/-! ### The concrete safety computations -/

theorem cellAt_emptyBoard (j : Nat) : cellAt emptyBoard j = none := by
  show (List.replicate 9 (none : Cell))[j]?.getD none = none
  rcases Nat.lt_or_ge j 9 with h | h
  · rw [List.getElem?_replicate]
    simp [h]
  · rw [List.getElem?_eq_none (by simpa using h)]
    rfl

theorem length_emptyBoard : (emptyBoard : List Cell).length = 9 := by
  simp [emptyBoard]

/-- Moving first from the empty board, the minimax side never loses. -/
theorem safe_start_botX : safePos emptyBoard Sym.X true = true := by
  rw [safePos, safeF_eq_maskSafeF Sym.X emptyBoard.length emptyBoard true length_emptyBoard,
    maskSafeF_eq_safeSearch _ _ _ _ (by decide) (by decide) (Or.inl (by decide))]
  decide

/-- Moving second from the empty board, the minimax side never loses. -/
theorem safe_start_botO : safePos emptyBoard Sym.O false = true := by
  rw [safePos, safeF_eq_maskSafeF Sym.O emptyBoard.length emptyBoard false length_emptyBoard,
    maskSafeF_eq_safeSearch _ _ _ _ (by decide) (by decide) (Or.inl (by decide))]
  decide

theorem safe_openings_mask : ((List.range 9).all fun j =>
    safeSearch 9 (encodeMask (emptyBoard.set j (some Sym.X)) Sym.X)
      (encodeMask (emptyBoard.set j (some Sym.X)) Sym.O) false) = true := by
  decide

/-- After an arbitrary first `X` stone, the minimax side (playing `X`) still
never loses: every opening move is value-preserving in tic-tac-toe. -/
theorem safe_openings {j : Nat} (hj : j < 9) :
    safePos (emptyBoard.set j (some Sym.X)) Sym.X false = true := by
  have hlen : (emptyBoard.set j (some Sym.X)).length = 9 := by
    simp [List.length_set, emptyBoard]
  have hjlen : j < (emptyBoard : List Cell).length := by
    simpa [emptyBoard] using hj
  have hencO : encodeMask (emptyBoard.set j (some Sym.X)) Sym.X.other = 0 := by
    show encodeMask (emptyBoard.set j (some Sym.X)) Sym.O = 0
    rw [encodeMask_set_other emptyBoard j Sym.X Sym.O hjlen (cellAt_emptyBoard j) (by decide)]
    rfl
  have h := List.all_eq_true.mp safe_openings_mask j (List.mem_range.mpr hj)
  rw [safePos, safeF_eq_maskSafeF Sym.X _ _ false hlen,
    maskSafeF_eq_safeSearch _ _ _ _ (encodeMask_lt_512 Sym.X hlen)
      (encodeMask_lt_512 Sym.X.other hlen) (Or.inr (by rw [hencO]; decide)), hlen]
  exact h

/-! ### Mask mirror of `minimaxF` (for evaluating concrete positions) -/

theorem sym_beq_true_iff {a b : Sym} : (a == b) = true ↔ a = b := by
  cases a <;> cases b <;> simp_all <;> rfl

theorem sym_beq_false_iff {a b : Sym} : (a == b) = false ↔ a ≠ b := by
  cases a <;> cases b <;> simp_all <;> decide

theorem sym_next_beq (current bot : Sym) :
    ((if current = bot then bot.other else bot) == bot) = !(current == bot) := by
  cases current <;> cases bot <;> decide

/-- `reduce` of the mask minimax: scans the remaining moves carrying the best
`(index, score)` so far; matching on the `Int` constructors keeps every score
a literal, so each child is evaluated exactly once during kernel reduction. -/
def mmScan (ev : Nat → Int) : List Nat → Nat → Int → Bool → MMResult
  | [], bi, bs, _ => ⟨some bi, bs⟩
  | i :: is, bi, bs, isMax =>
    match ev i with
    | Int.ofNat n =>
      if isMax then
        if bs < Int.ofNat n then mmScan ev is i (Int.ofNat n) isMax
        else mmScan ev is bi bs isMax
      else
        if Int.ofNat n < bs then mmScan ev is i (Int.ofNat n) isMax
        else mmScan ev is bi bs isMax
    | Int.negSucc n =>
      if isMax then
        if bs < Int.negSucc n then mmScan ev is i (Int.negSucc n) isMax
        else mmScan ev is bi bs isMax
      else
        if Int.negSucc n < bs then mmScan ev is i (Int.negSucc n) isMax
        else mmScan ev is bi bs isMax

theorem bestMax_cons (m mv : Nat × Int) (ms : List (Nat × Int)) :
    bestMax m (mv :: ms) = bestMax (if mv.2 > m.2 then mv else m) ms := rfl

theorem bestMin_cons (m mv : Nat × Int) (ms : List (Nat × Int)) :
    bestMin m (mv :: ms) = bestMin (if mv.2 < m.2 then mv else m) ms := rfl

theorem mmScan_max_eq (ev : Nat → Int) : ∀ (is : List Nat) (bi : Nat) (bs : Int),
    mmScan ev is bi bs true =
      ⟨some (bestMax (bi, bs) (is.map fun i => (i, ev i))).1,
        (bestMax (bi, bs) (is.map fun i => (i, ev i))).2⟩ := by
  intro is
  induction is with
  | nil => intro bi bs; simp [mmScan, bestMax]
  | cons i is ih =>
    intro bi bs
    rw [List.map_cons, bestMax_cons]
    rcases hev : ev i with n | n
    · by_cases hlt : bs < Int.ofNat n
      · have hstep : mmScan ev (i :: is) bi bs true = mmScan ev is i (Int.ofNat n) true := by
          simp only [mmScan, hev, if_true]
          rw [if_pos hlt]
        have hsel : (if (i, Int.ofNat n).2 > (bi, bs).2 then (i, Int.ofNat n) else (bi, bs)) =
            (i, Int.ofNat n) := by
          simp only [gt_iff_lt]
          rw [if_pos hlt]
        rw [hstep, ih, hsel]
      · have hstep : mmScan ev (i :: is) bi bs true = mmScan ev is bi bs true := by
          simp only [mmScan, hev, if_true]
          rw [if_neg hlt]
        have hsel : (if (i, Int.ofNat n).2 > (bi, bs).2 then (i, Int.ofNat n) else (bi, bs)) =
            (bi, bs) := by
          simp only [gt_iff_lt]
          rw [if_neg hlt]
        rw [hstep, ih, hsel]
    · by_cases hlt : bs < Int.negSucc n
      · have hstep : mmScan ev (i :: is) bi bs true =
            mmScan ev is i (Int.negSucc n) true := by
          simp only [mmScan, hev, if_true]
          rw [if_pos hlt]
        have hsel : (if (i, Int.negSucc n).2 > (bi, bs).2 then (i, Int.negSucc n)
            else (bi, bs)) = (i, Int.negSucc n) := by
          simp only [gt_iff_lt]
          rw [if_pos hlt]
        rw [hstep, ih, hsel]
      · have hstep : mmScan ev (i :: is) bi bs true = mmScan ev is bi bs true := by
          simp only [mmScan, hev, if_true]
          rw [if_neg hlt]
        have hsel : (if (i, Int.negSucc n).2 > (bi, bs).2 then (i, Int.negSucc n)
            else (bi, bs)) = (bi, bs) := by
          simp only [gt_iff_lt]
          rw [if_neg hlt]
        rw [hstep, ih, hsel]

theorem mmScan_min_eq (ev : Nat → Int) : ∀ (is : List Nat) (bi : Nat) (bs : Int),
    mmScan ev is bi bs false =
      ⟨some (bestMin (bi, bs) (is.map fun i => (i, ev i))).1,
        (bestMin (bi, bs) (is.map fun i => (i, ev i))).2⟩ := by
  intro is
  induction is with
  | nil => intro bi bs; simp [mmScan, bestMin]
  | cons i is ih =>
    intro bi bs
    rw [List.map_cons, bestMin_cons]
    rcases hev : ev i with n | n
    · by_cases hlt : Int.ofNat n < bs
      · have hstep : mmScan ev (i :: is) bi bs false =
            mmScan ev is i (Int.ofNat n) false := by
          simp only [mmScan, hev, Bool.false_eq_true, if_false]
          rw [if_pos hlt]
        have hsel : (if (i, Int.ofNat n).2 < (bi, bs).2 then (i, Int.ofNat n) else (bi, bs)) =
            (i, Int.ofNat n) := by
          rw [if_pos hlt]
        rw [hstep, ih, hsel]
      · have hstep : mmScan ev (i :: is) bi bs false = mmScan ev is bi bs false := by
          simp only [mmScan, hev, Bool.false_eq_true, if_false]
          rw [if_neg hlt]
        have hsel : (if (i, Int.ofNat n).2 < (bi, bs).2 then (i, Int.ofNat n) else (bi, bs)) =
            (bi, bs) := by
          rw [if_neg hlt]
        rw [hstep, ih, hsel]
    · by_cases hlt : Int.negSucc n < bs
      · have hstep : mmScan ev (i :: is) bi bs false =
            mmScan ev is i (Int.negSucc n) false := by
          simp only [mmScan, hev, Bool.false_eq_true, if_false]
          rw [if_pos hlt]
        have hsel : (if (i, Int.negSucc n).2 < (bi, bs).2 then (i, Int.negSucc n)
            else (bi, bs)) = (i, Int.negSucc n) := by
          rw [if_pos hlt]
        rw [hstep, ih, hsel]
      · have hstep : mmScan ev (i :: is) bi bs false = mmScan ev is bi bs false := by
          simp only [mmScan, hev, Bool.false_eq_true, if_false]
          rw [if_neg hlt]
        have hsel : (if (i, Int.negSucc n).2 < (bi, bs).2 then (i, Int.negSucc n)
            else (bi, bs)) = (bi, bs) := by
          rw [if_neg hlt]
        rw [hstep, ih, hsel]

/-- Seeds the scan with the first child's score, forcing it to a literal. -/
def mmSeed (ev : Nat → Int) (as : List Nat) (a : Nat) (x : Int) (c : Bool) : MMResult :=
  match x with
  | Int.ofNat n => mmScan ev as a (Int.ofNat n) c
  | Int.negSucc n => mmScan ev as a (Int.negSucc n) c

theorem mmSeed_eq (ev : Nat → Int) (as : List Nat) (a : Nat) (x : Int) (c : Bool) :
    mmSeed ev as a x c = mmScan ev as a x c := by
  cases x <;> rfl

/-- Mask mirror of `minimaxF`, in the same move order; win-line checks are
unordered, valid whenever one side is line-free. -/
def maskMinimax (fuel : Nat) (botM humM : Nat) (curIsBot : Bool) (depth : Nat) : MMResult :=
  if hasLineFast botM then ⟨none, (10 : Int) - depth⟩
  else if hasLineFast humM then ⟨none, (depth : Int) - 10⟩
  else
    match maskAvail botM humM with
    | [] => ⟨none, 0⟩
    | a :: as =>
      match fuel with
      | 0 => ⟨none, 0⟩
      | fuel' + 1 =>
        mmSeed (fun i =>
            (maskMinimax fuel' (if curIsBot then botM ||| 2 ^ i else botM)
              (if curIsBot then humM else humM ||| 2 ^ i) (!curIsBot) (depth + 1)).score)
          as a
          ((maskMinimax fuel' (if curIsBot then botM ||| 2 ^ a else botM)
            (if curIsBot then humM else humM ||| 2 ^ a) (!curIsBot) (depth + 1)).score)
          curIsBot

theorem getWinner_of_maskWinner_true (bot : Sym) {board : List Cell}
    (h : maskWinner (encodeMask board bot) (encodeMask board bot.other) = some true) :
    getWinner board = some bot := by
  rw [maskWinner_eq bot board] at h
  rcases hopt : getWinner board with _ | w
  · rw [hopt] at h
    cases h
  · rw [hopt] at h
    simp only [Option.map_some'] at h
    injection h with h'
    rw [sym_beq_true_iff.mp h']

theorem getWinner_of_maskWinner_false (bot : Sym) {board : List Cell}
    (h : maskWinner (encodeMask board bot) (encodeMask board bot.other) = some false) :
    getWinner board = some bot.other := by
  rw [maskWinner_eq bot board] at h
  rcases hopt : getWinner board with _ | w
  · rw [hopt] at h
    cases h
  · rw [hopt] at h
    simp only [Option.map_some'] at h
    injection h with h'
    have hne := sym_beq_false_iff.mp h'
    rcases sym_eq_bot_or_other w bot with rfl | rfl
    · exact absurd rfl hne
    · rfl

theorem getWinner_of_maskWinner_none (bot : Sym) {board : List Cell}
    (h : maskWinner (encodeMask board bot) (encodeMask board bot.other) = none) :
    getWinner board = none := by
  rw [maskWinner_eq bot board] at h
  rcases hopt : getWinner board with _ | w
  · rfl
  · rw [hopt] at h
    cases h

theorem minimaxF_eq_maskMinimax (bot : Sym) :
    ∀ (fuel : Nat) (board : List Cell) (current : Sym) (depth : Nat),
      board.length = 9 →
      hasLineMask (encodeMask board bot) = false ∨
        hasLineMask (encodeMask board bot.other) = false →
      minimaxF bot bot.other fuel board current depth =
        maskMinimax fuel (encodeMask board bot) (encodeMask board bot.other)
          (current == bot) depth := by
  intro fuel
  induction fuel with
  | zero =>
    intro board current depth hlen hnb
    have hbm := encodeMask_lt_512 bot hlen
    have hhm := encodeMask_lt_512 bot.other hlen
    rcases hb : hasLineMask (encodeMask board bot) with _ | _ <;>
      rcases hh : hasLineMask (encodeMask board bot.other) with _ | _
    · have hw := getWinner_of_maskWinner_none bot (maskWinner_none_of hb hh)
      rw [maskMinimax, if_neg (by simp [hasLine_eq hbm, hb]),
        if_neg (by simp [hasLine_eq hhm, hh])]
      rcases hava : maskAvail (encodeMask board bot) (encodeMask board bot.other)
        with _ | ⟨a, as⟩
      · have hful : boardFull board = true := by
          rw [boardFull_eq_isEmpty, getAvailableMoves_eq_maskAvail bot hlen, hava]
          rfl
        rw [minimaxF_full hw hful]
      · have hful : boardFull board = false := by
          rw [boardFull_eq_isEmpty, getAvailableMoves_eq_maskAvail bot hlen, hava]
          rfl
        rw [minimaxF.eq_def]
        simp [hw, hful]
    · have hw := getWinner_of_maskWinner_false bot (maskWinner_some_false_of hb hh)
      rw [minimaxF_winner_hum (Ne.symm (Sym.other_ne bot)) hw, maskMinimax,
        if_neg (by simp [hasLine_eq hbm, hb]), if_pos (by simp [hasLine_eq hhm, hh])]
    · have hw := getWinner_of_maskWinner_true bot (maskWinner_some_true_of hb hh)
      rw [minimaxF_winner_bot hw, maskMinimax, if_pos (by simp [hasLine_eq hbm, hb])]
    · rw [hb] at hnb; rw [hh] at hnb
      rcases hnb with h | h <;> cases h
  | succ fuel ih =>
    intro board current depth hlen hnb
    have hbm := encodeMask_lt_512 bot hlen
    have hhm := encodeMask_lt_512 bot.other hlen
    rcases hb : hasLineMask (encodeMask board bot) with _ | _ <;>
      rcases hh : hasLineMask (encodeMask board bot.other) with _ | _
    · have hw := getWinner_of_maskWinner_none bot (maskWinner_none_of hb hh)
      rw [maskMinimax, if_neg (by simp [hasLine_eq hbm, hb]),
        if_neg (by simp [hasLine_eq hhm, hh])]
      rcases hava : maskAvail (encodeMask board bot) (encodeMask board bot.other)
        with _ | ⟨a, as⟩
      · have hful : boardFull board = true := by
          rw [boardFull_eq_isEmpty, getAvailableMoves_eq_maskAvail bot hlen, hava]
          rfl
        rw [minimaxF_full hw hful]
      · have hful : boardFull board = false := by
          rw [boardFull_eq_isEmpty, getAvailableMoves_eq_maskAvail bot hlen, hava]
          rfl
        have havl : getAvailableMoves board = a :: as := by
          rw [getAvailableMoves_eq_maskAvail bot hlen, hava]
        have hchild : ∀ j, j ∈ getAvailableMoves board →
            minimaxF bot bot.other fuel (board.set j (some current))
              (if current = bot then bot.other else bot) (depth + 1) =
            maskMinimax fuel
              (if (current == bot) then encodeMask board bot ||| 2 ^ j
                else encodeMask board bot)
              (if (current == bot) then encodeMask board bot.other
                else encodeMask board bot.other ||| 2 ^ j)
              (!(current == bot)) (depth + 1) := by
          intro j hj
          rcases mem_getAvailableMoves.mp hj with ⟨hjlt, hjcell⟩
          have hlen2 : (board.set j (some current)).length = 9 := by
            simp [List.length_set, hlen]
          by_cases hcur : current = bot
          · subst hcur
            have hbeq : (current == current) = true := beq_self_sym current
            have hencb := encodeMask_set_same board j current hjlt
            have hench := encodeMask_set_other board j current current.other
              hjlt hjcell (Sym.other_ne current).symm
            have hrec := ih (board.set j (some current)) current.other (depth + 1) hlen2
              (Or.inr (by rw [hench]; exact hh))
            rw [hencb, hench, other_beq_eq_false] at hrec
            have h1 : (if current = current then current.other else current) = current.other :=
              if_pos rfl
            rw [hbeq, h1, hrec]
            simp
          · have hcur' : current = bot.other := by
              rcases sym_eq_bot_or_other current bot with h | h
              · exact absurd h hcur
              · exact h
            subst hcur'
            have hbeq : (bot.other == bot) = false := other_beq_eq_false bot
            have hencb := encodeMask_set_other board j bot.other bot
              hjlt hjcell (Sym.other_ne bot)
            have hench := encodeMask_set_same board j bot.other hjlt
            have hrec := ih (board.set j (some bot.other)) bot (depth + 1) hlen2
              (Or.inl (by rw [hencb]; exact hb))
            rw [hencb, hench, beq_self_sym] at hrec
            have h1 : (if bot.other = bot then bot.other else bot) = bot :=
              if_neg (Sym.other_ne bot)
            rw [hbeq, h1, hrec]
            simp
        have hunfL : minimaxF bot bot.other (fuel + 1) board current depth =
            (match (getAvailableMoves board).map (fun i =>
                (i, (minimaxF bot bot.other fuel (board.set i (some current))
                      (if current = bot then bot.other else bot) (depth + 1)).score)) with
              | [] => (⟨none, 0⟩ : MMResult)
              | m :: ms =>
                if current = bot then ⟨some (bestMax m ms).1, (bestMax m ms).2⟩
                else ⟨some (bestMin m ms).1, (bestMin m ms).2⟩) := by
          conv_lhs => rw [minimaxF.eq_def]
          simp [hw, hful, Ne.symm (Sym.other_ne bot)]
        rw [hunfL, havl]
        simp only [List.map_cons]
        rw [mmSeed_eq]
        have hfun : ∀ j, j ∈ a :: as →
            ((fun i => (i, (minimaxF bot bot.other fuel (board.set i (some current))
                (if current = bot then bot.other else bot) (depth + 1)).score)) j : Nat × Int) =
            (j, (maskMinimax fuel
                (if (current == bot) then encodeMask board bot ||| 2 ^ j
                  else encodeMask board bot)
                (if (current == bot) then encodeMask board bot.other
                  else encodeMask board bot.other ||| 2 ^ j)
                (!(current == bot)) (depth + 1)).score) := by
          intro j hj
          have := hchild j (by rw [havl]; exact hj)
          simp only [this]
        have hmap : ((a :: as).map fun i =>
            (i, (minimaxF bot bot.other fuel (board.set i (some current))
                (if current = bot then bot.other else bot) (depth + 1)).score)) =
            ((a :: as).map fun i =>
            (i, (maskMinimax fuel
                (if (current == bot) then encodeMask board bot ||| 2 ^ i
                  else encodeMask board bot)
                (if (current == bot) then encodeMask board bot.other
                  else encodeMask board bot.other ||| 2 ^ i)
                (!(current == bot)) (depth + 1)).score)) :=
          List.map_congr_left hfun
        rw [List.map_cons] at hmap
        by_cases hcur : current = bot
        · rw [sym_beq_true_iff.mpr hcur, if_pos hcur,
            mmScan_max_eq]
          injection hmap with hmhead hmtail
          rw [hmhead, hmtail]
          simp only [sym_beq_true_iff.mpr hcur]
        · rw [sym_beq_false_iff.mpr hcur, if_neg hcur,
            mmScan_min_eq]
          injection hmap with hmhead hmtail
          rw [hmhead, hmtail]
          simp only [sym_beq_false_iff.mpr hcur]
    · have hw := getWinner_of_maskWinner_false bot (maskWinner_some_false_of hb hh)
      rw [minimaxF_winner_hum (Ne.symm (Sym.other_ne bot)) hw, maskMinimax,
        if_neg (by simp [hasLine_eq hbm, hb]), if_pos (by simp [hasLine_eq hhm, hh])]
    · have hw := getWinner_of_maskWinner_true bot (maskWinner_some_true_of hb hh)
      rw [minimaxF_winner_bot hw, maskMinimax, if_pos (by simp [hasLine_eq hbm, hb])]
    · rw [hb] at hnb; rw [hh] at hnb
      rcases hnb with h | h <;> cases h

/-! ### Hard-difficulty game dynamics (claim C1)

`advance` is the net effect of the server's `applyMove` on `(board, turn)`;
`GStep` is one move of the claim's continuation — the opponent plays any
legal cell, the bot plays the cell chosen by `minimax` (as `getBotMove` does
under Hard); `ReachHard` are the room positions reachable in a Hard
bot-match: the fresh/reset position, positions reached by play, and — via a
move request carrying another room's id — a position where the automated
seat's first stone was placed arbitrarily (only possible from the reset
state with `botSymbol = X`, where no bot move was triggered). -/

def advance (b : List Cell) (s : Sym) (i : Nat) : List Cell × Sym :=
  let b2 := b.set i (some s)
  (b2, if getWinner b2 = none ∧ boardFull b2 = false then s.other else s)

inductive GStep (bot : Sym) : List Cell × Sym → List Cell × Sym → Prop where
  | human (b : List Cell) (j : Nat) (hw : getWinner b = none) (hf : boardFull b = false)
      (hj : j ∈ getAvailableMoves b) : GStep bot (b, bot.other) (advance b bot.other j)
  | engine (b : List Cell) (i : Nat) (hw : getWinner b = none) (hf : boardFull b = false)
      (hm : (minimax b bot bot bot.other 0).index = some i) :
      GStep bot (b, bot) (advance b bot i)

inductive ReachHard (bot : Sym) : List Cell × Sym → Prop where
  | init : ReachHard bot (emptyBoard, Sym.X)
  | step {s t : List Cell × Sym} : ReachHard bot s → GStep bot s t → ReachHard bot t
  | inject (j : Nat) (hbot : bot = Sym.X) (hj : j ∈ getAvailableMoves emptyBoard) :
      ReachHard bot (advance emptyBoard Sym.X j)

/-- The position is one the bot cannot lose from. -/
def SafeState (bot : Sym) (p : List Cell × Sym) : Prop :=
  safePos p.1 bot (p.2 == bot) = true

theorem length_pos_succ {b : List Cell} (hf : boardFull b = false) :
    ∃ L, b.length = L + 1 := by
  have h1 := countEmpty_pos_of_not_full hf
  have h2 := countEmpty_le_length b
  rcases hL : b.length with _ | L
  · omega
  · exact ⟨L, rfl⟩

theorem gstep_length {bot : Sym} {s t : List Cell × Sym} (h : GStep bot s t) :
    t.1.length = s.1.length := by
  cases h <;> simp [advance, List.length_set]

theorem reach_length {bot : Sym} {p : List Cell × Sym} (h : ReachHard bot p) :
    p.1.length = 9 := by
  induction h with
  | init => exact length_emptyBoard
  | step _ hstep ih => rw [gstep_length hstep, ih]
  | inject j hbot hj => simp [advance, List.length_set, length_emptyBoard]

/-- Safety is preserved by one continuation step. -/
theorem safe_step {bot : Sym} {s t : List Cell × Sym} (hlen : s.1.length = 9)
    (hsafe : SafeState bot s) (hstep : GStep bot s t) : SafeState bot t := by
  cases hstep with
  | human b j hw hf hj =>
    simp only at hlen
    rcases mem_getAvailableMoves.mp hj with ⟨hjlt, hjcell⟩
    have hcnt := countEmpty_set_succ bot.other hjlt hjcell
    have hcle : countEmpty b ≤ 9 := hlen ▸ countEmpty_le_length b
    rw [SafeState, safePos, other_beq_eq_false, hlen,
      show (9 : Nat) = 8 + 1 from rfl, safeF_succ_nonterminal hw hf] at hsafe
    simp only [Bool.false_eq_true, if_false] at hsafe
    have hj' := List.all_eq_true.mp hsafe j hj
    rw [SafeState, safePos]
    have hlen2 : (advance b bot.other j).1.length = 9 := by
      simp [advance, List.length_set, hlen]
    rw [hlen2]
    by_cases hterm : getWinner (b.set j (some bot.other)) = none ∧
        boardFull (b.set j (some bot.other)) = false
    · have hturn : (advance b bot.other j).2 = bot.other.other := by
        simp [advance, hterm]
      have hboard : (advance b bot.other j).1 = b.set j (some bot.other) := rfl
      rw [hboard, hturn, Sym.other_other, beq_self_sym]
      rw [show (9 : Nat) = 8 + 1 from rfl] at *
      calc safeF bot bot.other (8 + 1) (b.set j (some bot.other)) true
          = safeF bot bot.other 8 (b.set j (some bot.other)) true :=
            safeF_fuel_congr bot (8 + 1) (by omega) (by omega)
        _ = true := hj'
    · have hterm' : getWinner (b.set j (some bot.other)) ≠ none ∨
          boardFull (b.set j (some bot.other)) = true := by
        by_contra hcon
        push_neg at hcon
        exact hterm ⟨hcon.1, Bool.eq_false_iff.mpr hcon.2⟩
      have hboard : (advance b bot.other j).1 = b.set j (some bot.other) := rfl
      rw [hboard]
      calc safeF bot bot.other 9 (b.set j (some bot.other)) ((advance b bot.other j).2 == bot)
          = safeF bot bot.other 8 (b.set j (some bot.other)) true :=
            safeF_terminal_congr bot hterm'
        _ = true := hj'
  | engine b i hw hf hm =>
    simp only at hlen
    obtain ⟨⟨i', hi', hidx, hsc⟩, _⟩ :=
      minimaxF_bot_node bot bot.other 8 b 0 hw hf
    rw [minimax, hlen, show (9 : Nat) = 8 + 1 from rfl, hidx] at hm
    injection hm with hm'
    subst hm'
    rcases mem_getAvailableMoves.mp hi' with ⟨hilt, hicell⟩
    have hcnt := countEmpty_set_succ bot hilt hicell
    have hcle : countEmpty b ≤ 9 := hlen ▸ countEmpty_le_length b
    have hsafe' : safeF bot bot.other 9 b (bot == bot) = true := by
      have h0 := hsafe
      rw [SafeState, safePos, hlen] at h0
      exact h0
    have hscore :=
      (minimaxF_score_nonneg_iff_safeF bot 9 b bot 0 (by omega) (by omega)).mpr hsafe'
    have hchild : 0 ≤ (minimaxF bot bot.other 8 (b.set i' (some bot)) bot.other (0 + 1)).score := by
      rw [show (9 : Nat) = 8 + 1 from rfl, hsc] at hscore
      exact hscore
    have hsafechild : safeF bot bot.other 8 (b.set i' (some bot)) false = true := by
      have h2 := (minimaxF_score_nonneg_iff_safeF bot 8 (b.set i' (some bot)) bot.other (0 + 1)
        (by omega) (by omega)).mp hchild
      rwa [other_beq_eq_false] at h2
    rw [SafeState, safePos]
    have hlen2 : (advance b bot i').1.length = 9 := by
      simp [advance, List.length_set, hlen]
    rw [hlen2]
    have hboard : (advance b bot i').1 = b.set i' (some bot) := rfl
    rw [hboard]
    by_cases hterm : getWinner (b.set i' (some bot)) = none ∧
        boardFull (b.set i' (some bot)) = false
    · have hturn : (advance b bot i').2 = bot.other := by
        simp [advance, hterm]
      rw [hturn, other_beq_eq_false]
      calc safeF bot bot.other 9 (b.set i' (some bot)) false
          = safeF bot bot.other 8 (b.set i' (some bot)) false :=
            safeF_fuel_congr bot 9 (by omega) (by omega)
        _ = true := hsafechild
    · have hterm' : getWinner (b.set i' (some bot)) ≠ none ∨
          boardFull (b.set i' (some bot)) = true := by
        by_contra hcon
        push_neg at hcon
        exact hterm ⟨hcon.1, Bool.eq_false_iff.mpr hcon.2⟩
      calc safeF bot bot.other 9 (b.set i' (some bot)) ((advance b bot i').2 == bot)
          = safeF bot bot.other 8 (b.set i' (some bot)) false :=
            safeF_terminal_congr bot hterm'
        _ = true := hsafechild

theorem openings_nonterminal : ((List.range 9).all fun j =>
    decide (getWinner (emptyBoard.set j (some Sym.X)) = none) &&
      !boardFull (emptyBoard.set j (some Sym.X))) = true := by
  decide

/-- Every reachable Hard-match position is safe for the bot. -/
theorem reach_safe {bot : Sym} {p : List Cell × Sym} (h : ReachHard bot p) :
    SafeState bot p := by
  induction h with
  | init =>
    rw [SafeState]
    cases bot
    · exact safe_start_botX
    · exact safe_start_botO
  | step hs hstep ih => exact safe_step (reach_length hs) ih hstep
  | inject j hbot hj =>
    subst hbot
    rcases mem_getAvailableMoves.mp hj with ⟨hjlt, _⟩
    have hj9 : j < 9 := by rwa [length_emptyBoard] at hjlt
    have hnt := List.all_eq_true.mp openings_nonterminal j (List.mem_range.mpr hj9)
    simp only [Bool.and_eq_true, decide_eq_true_eq, Bool.not_eq_true'] at hnt
    have hturn : (advance emptyBoard Sym.X j).2 = Sym.O := by
      simp [advance, hnt.1, hnt.2, Sym.other]
    rw [SafeState, hturn]
    have hboard : (advance emptyBoard Sym.X j).1 = emptyBoard.set j (some Sym.X) := rfl
    rw [hboard]
    exact safe_openings hj9

theorem gstep_count {bot : Sym} {s t : List Cell × Sym} (h : GStep bot s t) :
    countEmpty t.1 < countEmpty s.1 := by
  cases h with
  | human b j hw hf hj =>
    rcases mem_getAvailableMoves.mp hj with ⟨hlt, hcell⟩
    have := countEmpty_set_succ bot.other hlt hcell
    simp only [advance]
    omega
  | engine b i hw hf hm =>
    obtain ⟨L, hL⟩ := length_pos_succ hf
    obtain ⟨⟨i', hi', hidx, _⟩, _⟩ := minimaxF_bot_node bot bot.other L b 0 hw hf
    rw [minimax, hL, hidx] at hm
    injection hm with hm'
    subst hm'
    rcases mem_getAvailableMoves.mp hi' with ⟨hlt, hcell⟩
    have := countEmpty_set_succ bot hlt hcell
    simp only [advance]
    omega

/-- At a non-terminal position somebody can always move (the engine branch
relies on `minimax` returning an index at non-terminal positions). -/
theorem not_stuck (bot : Sym) {p : List Cell × Sym} (hw : getWinner p.1 = none)
    (hf : boardFull p.1 = false) : ∃ u, GStep bot p u := by
  obtain ⟨b, turn⟩ := p
  simp only at hw hf
  rcases sym_eq_bot_or_other turn bot with rfl | rfl
  · obtain ⟨L, hL⟩ := length_pos_succ hf
    obtain ⟨⟨i', hi', hidx, _⟩, _⟩ := minimaxF_bot_node turn turn.other L b 0 hw hf
    refine ⟨advance b turn i', GStep.engine b i' hw hf ?_⟩
    rw [minimax, hL]
    exact hidx
  · have hne := boardFull_eq_false_iff.mp hf
    rcases hava : getAvailableMoves b with _ | ⟨a, as⟩
    · exact absurd hava hne
    · exact ⟨advance b bot.other a,
        GStep.human b a hw hf (by rw [hava]; exact List.mem_cons_self _ _)⟩

/-- A safe terminal position is a bot win or a draw, never an opponent win. -/
theorem safe_terminal_outcome {bot : Sym} {p : List Cell × Sym} (hsafe : SafeState bot p)
    (hterm : getWinner p.1 ≠ none ∨ boardFull p.1 = true) :
    getWinner p.1 = some bot ∨ (getWinner p.1 = none ∧ boardFull p.1 = true) := by
  rcases hopt : getWinner p.1 with _ | w
  · right
    refine ⟨rfl, ?_⟩
    rcases hterm with h | h
    · exact absurd hopt h
    · exact h
  · rcases sym_eq_bot_or_other w bot with rfl | rfl
    · left; rfl
    · exfalso
      have hbad := hsafe
      rw [SafeState, safePos, safeF_winner_hum (Ne.symm (Sym.other_ne bot)) hopt] at hbad
      cases hbad

theorem reach_of_cont {bot : Sym} {s t : List Cell × Sym} (hs : ReachHard bot s)
    (h : Relation.ReflTransGen (GStep bot) s t) : ReachHard bot t := by
  induction h with
  | refl => exact hs
  | tail _ hstep ih => exact ReachHard.step ih hstep

/-- **C1.** Under Hard difficulty the automated opponent never loses: from any
reachable Hard bot-match room state with outcome undecided and the turn on the
automated seat, every continuation in which the engine's moves are the minimax
choices and the opponent plays arbitrary legal moves (`GStep`) only ever stops
at a position won by the bot or drawn — never one won by the opponent — and
each step strictly decreases the number of empty cells, so play terminates. -/
theorem c1_hard_bot_never_loses (bot : Sym) (s t : List Cell × Sym)
    (hreach : ReachHard bot s) (hupdate : getWinner s.1 = none)
    (hfree : boardFull s.1 = false) (hturn : s.2 = bot)
    (hcont : Relation.ReflTransGen (GStep bot) s t) :
    getWinner t.1 ≠ some bot.other ∧
    ((∀ u, ¬ GStep bot t u) →
      getWinner t.1 = some bot ∨ (getWinner t.1 = none ∧ boardFull t.1 = true)) ∧
    (∀ u, GStep bot t u → countEmpty u.1 < countEmpty t.1) := by
  have hreacht := reach_of_cont hreach hcont
  have hsafet := reach_safe hreacht
  refine ⟨?_, ?_, fun u hu => gstep_count hu⟩
  · intro hwin
    have hbad := hsafet
    rw [SafeState, safePos, safeF_winner_hum (Ne.symm (Sym.other_ne bot)) hwin] at hbad
    cases hbad
  · intro hstuck
    have hterm : getWinner t.1 ≠ none ∨ boardFull t.1 = true := by
      by_contra hcon
      push_neg at hcon
      obtain ⟨u, hu⟩ := not_stuck bot hcon.1 (Bool.eq_false_iff.mpr hcon.2)
      exact hstuck u hu
    exact safe_terminal_outcome hsafet hterm

theorem minimax_root_eq_mask (bot : Sym) (board : List Cell) (hlen : board.length = 9)
    (hnb : hasLineMask (encodeMask board bot) = false ∨
      hasLineMask (encodeMask board bot.other) = false) :
    minimax board bot bot bot.other 0 =
      maskMinimax 9 (encodeMask board bot) (encodeMask board bot.other) (bot == bot) 0 := by
  rw [minimax, hlen]
  exact minimaxF_eq_maskMinimax bot 9 board bot 0 hlen hnb

theorem c1_witness_move1 :
    (minimax [some Sym.X, some Sym.O, none, none, none, none, none, none, none]
      Sym.X Sym.X Sym.X.other 0).index = some 3 := by
  rw [minimax_root_eq_mask Sym.X
    [some Sym.X, some Sym.O, none, none, none, none, none, none, none] rfl
    (Or.inl (by decide))]
  decide

theorem c1_witness_move2 :
    (minimax [some Sym.X, some Sym.O, none, some Sym.X, none, none, none, none, some Sym.O]
      Sym.X Sym.X Sym.X.other 0).index = some 6 := by
  rw [minimax_root_eq_mask Sym.X
    [some Sym.X, some Sym.O, none, some Sym.X, none, none, none, none, some Sym.O] rfl
    (Or.inl (by decide))]
  decide

/-- Witness for C1: with `botSymbol = X`, the reachable position
`X0 O1, X to move` (arbitrary injected first stone, then an opponent reply),
continued by minimax play `X3`, opponent `O8`, minimax `X6`, ends in a
terminal position won by the bot. -/
theorem c1_hard_bot_never_loses_witness :
    getWinner [some Sym.X, some Sym.O, none, some Sym.X, none, none, some Sym.X, none,
        some Sym.O] ≠ some Sym.X.other ∧
    ((∀ u, ¬ GStep Sym.X ([some Sym.X, some Sym.O, none, some Sym.X, none, none, some Sym.X,
        none, some Sym.O], Sym.X) u) →
      getWinner [some Sym.X, some Sym.O, none, some Sym.X, none, none, some Sym.X, none,
        some Sym.O] = some Sym.X ∨
      (getWinner [some Sym.X, some Sym.O, none, some Sym.X, none, none, some Sym.X, none,
        some Sym.O] = none ∧
        boardFull [some Sym.X, some Sym.O, none, some Sym.X, none, none, some Sym.X, none,
          some Sym.O] = true)) ∧
    (∀ u, GStep Sym.X ([some Sym.X, some Sym.O, none, some Sym.X, none, none, some Sym.X,
        none, some Sym.O], Sym.X) u →
      countEmpty u.1 < countEmpty [some Sym.X, some Sym.O, none, some Sym.X, none, none,
        some Sym.X, none, some Sym.O]) := by
  have hr1 : ReachHard Sym.X ([some Sym.X, none, none, none, none, none, none, none, none],
      Sym.O) := by
    have h := @ReachHard.inject Sym.X 0 rfl (by decide)
    have heq : advance emptyBoard Sym.X 0 =
        (([some Sym.X, none, none, none, none, none, none, none, none] : List Cell),
          Sym.O) := by decide
    rwa [heq] at h
  have hstep1 : GStep Sym.X ([some Sym.X, none, none, none, none, none, none, none, none],
      Sym.O) ([some Sym.X, some Sym.O, none, none, none, none, none, none, none], Sym.X) := by
    have h := @GStep.human Sym.X
      [some Sym.X, none, none, none, none, none, none, none, none] 1
      (by decide) (by decide) (by decide)
    have heq : advance [some Sym.X, none, none, none, none, none, none, none, none]
        Sym.X.other 1 =
        (([some Sym.X, some Sym.O, none, none, none, none, none, none, none] : List Cell),
          Sym.X) := by decide
    rwa [heq] at h
  have hreach : ReachHard Sym.X
      ([some Sym.X, some Sym.O, none, none, none, none, none, none, none], Sym.X) :=
    ReachHard.step hr1 hstep1
  have hstepA : GStep Sym.X
      ([some Sym.X, some Sym.O, none, none, none, none, none, none, none], Sym.X)
      ([some Sym.X, some Sym.O, none, some Sym.X, none, none, none, none, none], Sym.O) := by
    have h := @GStep.engine Sym.X
      [some Sym.X, some Sym.O, none, none, none, none, none, none, none] 3
      (by decide) (by decide) c1_witness_move1
    have heq : advance [some Sym.X, some Sym.O, none, none, none, none, none, none, none]
        Sym.X 3 =
        (([some Sym.X, some Sym.O, none, some Sym.X, none, none, none, none, none] :
          List Cell), Sym.O) := by decide
    rwa [heq] at h
  have hstepB : GStep Sym.X
      ([some Sym.X, some Sym.O, none, some Sym.X, none, none, none, none, none], Sym.O)
      ([some Sym.X, some Sym.O, none, some Sym.X, none, none, none, none, some Sym.O],
        Sym.X) := by
    have h := @GStep.human Sym.X
      [some Sym.X, some Sym.O, none, some Sym.X, none, none, none, none, none] 8
      (by decide) (by decide) (by decide)
    have heq : advance [some Sym.X, some Sym.O, none, some Sym.X, none, none, none, none,
        none] Sym.X.other 8 =
        (([some Sym.X, some Sym.O, none, some Sym.X, none, none, none, none, some Sym.O] :
          List Cell), Sym.X) := by decide
    rwa [heq] at h
  have hstepC : GStep Sym.X
      ([some Sym.X, some Sym.O, none, some Sym.X, none, none, none, none, some Sym.O], Sym.X)
      ([some Sym.X, some Sym.O, none, some Sym.X, none, none, some Sym.X, none, some Sym.O],
        Sym.X) := by
    have h := @GStep.engine Sym.X
      [some Sym.X, some Sym.O, none, some Sym.X, none, none, none, none, some Sym.O] 6
      (by decide) (by decide) c1_witness_move2
    have heq : advance [some Sym.X, some Sym.O, none, some Sym.X, none, none, none, none,
        some Sym.O] Sym.X 6 =
        (([some Sym.X, some Sym.O, none, some Sym.X, none, none, some Sym.X, none,
          some Sym.O] : List Cell), Sym.X) := by decide
    rwa [heq] at h
  have hcont : Relation.ReflTransGen (GStep Sym.X)
      ([some Sym.X, some Sym.O, none, none, none, none, none, none, none], Sym.X)
      ([some Sym.X, some Sym.O, none, some Sym.X, none, none, some Sym.X, none, some Sym.O],
        Sym.X) :=
    Relation.ReflTransGen.tail
      (Relation.ReflTransGen.tail (Relation.ReflTransGen.tail Relation.ReflTransGen.refl
        hstepA) hstepB) hstepC
  exact c1_hard_bot_never_loses Sym.X
    ([some Sym.X, some Sym.O, none, none, none, none, none, none, none], Sym.X)
    ([some Sym.X, some Sym.O, none, some Sym.X, none, none, some Sym.X, none, some Sym.O],
      Sym.X)
    hreach (by decide) (by decide) rfl hcont

/-! ### Fuel congruence for `minimaxF` (claim C2)

The recursion consumes one empty cell per ply, so any fuel covering
`countEmpty board` computes the same value; in particular the children of
`minimax board …` (fuel `board.length`, one cell just filled) again equal
`minimax` of the child position. -/

/-- Falling through the winner checks onto a full board scores `0`. -/
theorem minimaxF_notwin_full {bot hum : Sym} {fuel : Nat} {board : List Cell} {current : Sym}
    {depth : Nat} (hwb : getWinner board ≠ some bot) (hwh : getWinner board ≠ some hum)
    (hf : boardFull board = true) :
    minimaxF bot hum fuel board current depth = ⟨none, 0⟩ := by
  rw [minimaxF.eq_def]
  simp [hwb, hwh, hf]

/-- One-step unfolding at a non-terminal node (any side to move). -/
theorem minimaxF_nonterminal (bot hum : Sym) (fuel : Nat) (board : List Cell) (current : Sym)
    (depth : Nat) (hwb : getWinner board ≠ some bot) (hwh : getWinner board ≠ some hum)
    (hf : boardFull board = false) :
    minimaxF bot hum (fuel + 1) board current depth =
      match (getAvailableMoves board).map (fun i =>
          (i, (minimaxF bot hum fuel (board.set i (some current))
                (if current = bot then hum else bot) (depth + 1)).score)) with
      | [] => ⟨none, 0⟩
      | m :: ms =>
        if current = bot then ⟨some (bestMax m ms).1, (bestMax m ms).2⟩
        else ⟨some (bestMin m ms).1, (bestMin m ms).2⟩ := by
  conv_lhs => rw [minimaxF.eq_def]
  simp [hwb, hwh, hf]

/-- The JS `reduce((best, move) => move.score > best.score ? move : best)`
replaces the running best only on a strict improvement, so with
pairwise-increasing indices the reported index is least among score ties. -/
theorem bestMax_first : ∀ (ms : List (Nat × Int)) (m : Nat × Int),
    List.Pairwise (fun p q : Nat × Int => p.1 < q.1) (m :: ms) →
    ∀ x ∈ m :: ms, x.2 = (bestMax m ms).2 → (bestMax m ms).1 ≤ x.1 := by
  intro ms
  induction ms with
  | nil =>
    intro m _ x hx _
    have : x = m := by simpa [bestMax] using hx
    simp [bestMax, this]
  | cons mv ms ih =>
    intro m hp x hx hs
    rw [bestMax_cons] at hs ⊢
    have hm_mv : m.1 < mv.1 := (List.pairwise_cons.mp hp).1 mv (by simp)
    have hm_ms : ∀ q ∈ ms, m.1 < q.1 := fun q hq =>
      (List.pairwise_cons.mp hp).1 q (by simp [hq])
    have hmv_ms := (List.pairwise_cons.mp (List.pairwise_cons.mp hp).2)
    have hp' : List.Pairwise (fun p q : Nat × Int => p.1 < q.1)
        ((if mv.2 > m.2 then mv else m) :: ms) := by
      by_cases hgt : mv.2 > m.2
      · simpa [hgt] using List.pairwise_cons.mpr ⟨hmv_ms.1, hmv_ms.2⟩
      · simpa [hgt] using List.pairwise_cons.mpr ⟨hm_ms, hmv_ms.2⟩
    rcases List.mem_cons.mp hx with hx1 | hx'
    · -- x = m
      subst hx1
      by_cases hgt : mv.2 > x.2
      · exfalso
        rw [if_pos hgt] at hs
        have hle : mv.2 ≤ (bestMax mv ms).2 := le_bestMax (by simp)
        omega
      · rw [if_neg hgt] at hs hp' ⊢
        exact ih x hp' x (by simp) hs
    · rcases List.mem_cons.mp hx' with hx2 | hx3
      · -- x = mv
        subst hx2
        by_cases hgt : x.2 > m.2
        · rw [if_pos hgt] at hs hp' ⊢
          exact ih x hp' x (by simp) hs
        · rw [if_neg hgt] at hs hp' ⊢
          have hmle : m.2 ≤ (bestMax m ms).2 := le_bestMax (by simp)
          have hmeq : m.2 = (bestMax m ms).2 := by omega
          have hb := ih m hp' m (by simp) hmeq
          omega
      · -- x ∈ ms
        exact ih _ hp' x (by simp [hx3]) hs

/-- Dual of `bestMax_first` for the minimizing `reduce`. -/
theorem bestMin_first : ∀ (ms : List (Nat × Int)) (m : Nat × Int),
    List.Pairwise (fun p q : Nat × Int => p.1 < q.1) (m :: ms) →
    ∀ x ∈ m :: ms, x.2 = (bestMin m ms).2 → (bestMin m ms).1 ≤ x.1 := by
  intro ms
  induction ms with
  | nil =>
    intro m _ x hx _
    have : x = m := by simpa [bestMin] using hx
    simp [bestMin, this]
  | cons mv ms ih =>
    intro m hp x hx hs
    rw [bestMin_cons] at hs ⊢
    have hm_mv : m.1 < mv.1 := (List.pairwise_cons.mp hp).1 mv (by simp)
    have hm_ms : ∀ q ∈ ms, m.1 < q.1 := fun q hq =>
      (List.pairwise_cons.mp hp).1 q (by simp [hq])
    have hmv_ms := (List.pairwise_cons.mp (List.pairwise_cons.mp hp).2)
    have hp' : List.Pairwise (fun p q : Nat × Int => p.1 < q.1)
        ((if mv.2 < m.2 then mv else m) :: ms) := by
      by_cases hgt : mv.2 < m.2
      · simpa [hgt] using List.pairwise_cons.mpr ⟨hmv_ms.1, hmv_ms.2⟩
      · simpa [hgt] using List.pairwise_cons.mpr ⟨hm_ms, hmv_ms.2⟩
    rcases List.mem_cons.mp hx with hx1 | hx'
    · subst hx1
      by_cases hgt : mv.2 < x.2
      · exfalso
        rw [if_pos hgt] at hs
        have hle : (bestMin mv ms).2 ≤ mv.2 := bestMin_le (by simp)
        omega
      · rw [if_neg hgt] at hs hp' ⊢
        exact ih x hp' x (by simp) hs
    · rcases List.mem_cons.mp hx' with hx2 | hx3
      · subst hx2
        by_cases hgt : x.2 < m.2
        · rw [if_pos hgt] at hs hp' ⊢
          exact ih x hp' x (by simp) hs
        · rw [if_neg hgt] at hs hp' ⊢
          have hmle : (bestMin m ms).2 ≤ m.2 := bestMin_le (by simp)
          have hmeq : m.2 = (bestMin m ms).2 := by omega
          have hb := ih m hp' m (by simp) hmeq
          omega
      · exact ih _ hp' x (by simp [hx3]) hs

/-- The enumeration of empty cells is strictly ascending. -/
theorem pairwise_getAvailableMoves (board : List Cell) :
    List.Pairwise (· < ·) (getAvailableMoves board) := by
  rw [getAvailableMoves_eq]
  exact (List.pairwise_lt_range _).filter _

theorem minimaxF_fuel_congr (bot hum : Sym) :
    ∀ (n fuel₁ fuel₂ : Nat) (board : List Cell) (current : Sym) (depth : Nat),
      countEmpty board ≤ n → countEmpty board ≤ fuel₁ → countEmpty board ≤ fuel₂ →
      minimaxF bot hum fuel₁ board current depth = minimaxF bot hum fuel₂ board current depth := by
  intro n
  induction n with
  | zero =>
    intro fuel₁ fuel₂ board current depth hn h1 h2
    have hful : boardFull board = true := by
      by_contra hc
      have := countEmpty_pos_of_not_full (Bool.eq_false_iff.mpr hc)
      omega
    by_cases hwb : getWinner board = some bot
    · rw [minimaxF_winner_bot hwb, minimaxF_winner_bot hwb]
    · by_cases hwh : getWinner board = some hum
      · rcases em (bot = hum) with hbh | hbh
        · exact absurd (hbh ▸ hwh) hwb
        · rw [minimaxF_winner_hum hbh hwh, minimaxF_winner_hum hbh hwh]
      · rw [minimaxF_notwin_full hwb hwh hful, minimaxF_notwin_full hwb hwh hful]
  | succ n ih =>
    intro fuel₁ fuel₂ board current depth hn h1 h2
    by_cases hwb : getWinner board = some bot
    · rw [minimaxF_winner_bot hwb, minimaxF_winner_bot hwb]
    · by_cases hwh : getWinner board = some hum
      · rcases em (bot = hum) with hbh | hbh
        · exact absurd (hbh ▸ hwh) hwb
        · rw [minimaxF_winner_hum hbh hwh, minimaxF_winner_hum hbh hwh]
      · rcases hful : boardFull board with _ | _
        · have hpos : 0 < countEmpty board := countEmpty_pos_of_not_full hful
          rcases fuel₁ with _ | f₁
          · omega
          rcases fuel₂ with _ | f₂
          · omega
          rw [minimaxF_nonterminal bot hum f₁ board current depth hwb hwh hful,
            minimaxF_nonterminal bot hum f₂ board current depth hwb hwh hful]
          have hmap : ((getAvailableMoves board).map fun i =>
              (i, (minimaxF bot hum f₁ (board.set i (some current))
                    (if current = bot then hum else bot) (depth + 1)).score)) =
              ((getAvailableMoves board).map fun i =>
              (i, (minimaxF bot hum f₂ (board.set i (some current))
                    (if current = bot then hum else bot) (depth + 1)).score)) := by
            apply List.map_congr_left
            intro j hj
            rcases mem_getAvailableMoves.mp hj with ⟨hjlt, hjcell⟩
            have hcount : countEmpty (board.set j (some current)) + 1 = countEmpty board :=
              countEmpty_set_succ current hjlt hjcell
            have := ih f₁ f₂ (board.set j (some current))
              (if current = bot then hum else bot) (depth + 1)
              (by omega) (by omega) (by omega)
            rw [this]
          rw [hmap]
        · rw [minimaxF_notwin_full hwb hwh hful, minimaxF_notwin_full hwb hwh hful]


/-- `minimax` child calls ignore the exact fuel: the child of a 9-cell board
evaluated with fuel `8` equals the top-level `minimax` of the child board. -/
theorem minimax_child_eq (b : Sym) {board : List Cell} (hlen : board.length = 9)
    (s c : Sym) (depth : Nat) {j : Nat} (hj : j ∈ getAvailableMoves board) :
    minimaxF b b.other 8 (board.set j (some s)) c (depth + 1) =
      minimax (board.set j (some s)) c b b.other (depth + 1) := by
  rcases mem_getAvailableMoves.mp hj with ⟨hjlt, hjcell⟩
  have hcount : countEmpty (board.set j (some s)) + 1 = countEmpty board :=
    countEmpty_set_succ s hjlt hjcell
  have hce : countEmpty board ≤ 9 := hlen ▸ countEmpty_le_length board
  rw [minimax, List.length_set, hlen]
  exact minimaxF_fuel_congr b b.other 9 8 9 (board.set j (some s)) c (depth + 1)
    (by omega) (by omega) (by omega)

/-- **C2.** `minimax` computes the reference evaluation: terminal boards score
`10 - depth` / `depth - 10` / `0` for a bot win line / an opponent win line / a
draw; at a bot-to-move node it returns a legal move whose child score it
reports and which dominates every child, at an opponent-to-move node one whose
child score is dominated by every child; in both cases score ties are broken
in favour of the lowest empty cell index. -/
theorem c2_minimax_reference (board : List Cell) (b current : Sym) (depth : Nat)
    (hlen : board.length = 9) :
    (getWinner board = some b →
      minimax board current b b.other depth = ⟨none, (10 : Int) - depth⟩) ∧
    (getWinner board = some b.other →
      minimax board current b b.other depth = ⟨none, (depth : Int) - 10⟩) ∧
    (getWinner board = none → boardFull board = true →
      minimax board current b b.other depth = ⟨none, 0⟩) ∧
    (getWinner board = none → boardFull board = false → current = b →
      ∃ i ∈ getAvailableMoves board,
        (minimax board current b b.other depth).index = some i ∧
        (minimax board current b b.other depth).score =
          (minimax (board.set i (some b)) b.other b b.other (depth + 1)).score ∧
        (∀ j ∈ getAvailableMoves board,
          (minimax (board.set j (some b)) b.other b b.other (depth + 1)).score ≤
            (minimax board current b b.other depth).score) ∧
        (∀ j ∈ getAvailableMoves board,
          (minimax (board.set j (some b)) b.other b b.other (depth + 1)).score =
            (minimax board current b b.other depth).score → i ≤ j)) ∧
    (getWinner board = none → boardFull board = false → current = b.other →
      ∃ i ∈ getAvailableMoves board,
        (minimax board current b b.other depth).index = some i ∧
        (minimax board current b b.other depth).score =
          (minimax (board.set i (some b.other)) b b b.other (depth + 1)).score ∧
        (∀ j ∈ getAvailableMoves board,
          (minimax board current b b.other depth).score ≤
            (minimax (board.set j (some b.other)) b b b.other (depth + 1)).score) ∧
        (∀ j ∈ getAvailableMoves board,
          (minimax (board.set j (some b.other)) b b b.other (depth + 1)).score =
            (minimax board current b b.other depth).score → i ≤ j)) := by
  have hbo : b.other ≠ b := Sym.other_ne b
  refine ⟨?_, ?_, ?_, ?_, ?_⟩
  · intro hw
    rw [minimax]
    exact minimaxF_winner_bot hw
  · intro hw
    rw [minimax]
    exact minimaxF_winner_hum (Ne.symm hbo) hw
  · intro hw hf
    rw [minimax]
    exact minimaxF_full hw hf
  · intro hw hf hcur
    subst hcur
    have hne : getAvailableMoves board ≠ [] := boardFull_eq_false_iff.mp hf
    rcases heq : getAvailableMoves board with _ | ⟨a, as⟩
    · exact absurd heq hne
    have hunfold :
        minimaxF current current.other 9 board current depth =
          ⟨some (bestMax ((fun i =>
              (i, (minimaxF current current.other 8 (board.set i (some current))
                current.other (depth + 1)).score)) a)
              (as.map fun i =>
              (i, (minimaxF current current.other 8 (board.set i (some current))
                current.other (depth + 1)).score))).1,
            (bestMax ((fun i =>
              (i, (minimaxF current current.other 8 (board.set i (some current))
                current.other (depth + 1)).score)) a)
              (as.map fun i =>
              (i, (minimaxF current current.other 8 (board.set i (some current))
                current.other (depth + 1)).score))).2⟩ := by
      conv_lhs => rw [minimaxF.eq_def]
      simp [hw, hf, heq]
    set f : Nat → Nat × Int := fun i =>
      (i, (minimaxF current current.other 8 (board.set i (some current))
        current.other (depth + 1)).score) with hfdef
    have hroot : minimax board current current current.other depth =
        minimaxF current current.other 9 board current depth := by
      rw [minimax, hlen]
    have hmem : bestMax (f a) (as.map f) ∈ (a :: as).map f := by
      rw [List.map_cons]
      exact bestMax_mem _ _
    rcases List.mem_map.mp hmem with ⟨i, hi, hfi⟩
    have hpav := pairwise_getAvailableMoves board
    rw [heq] at hpav
    have hpair : List.Pairwise (fun p q : Nat × Int => p.1 < q.1) ((a :: as).map f) :=
      List.pairwise_map.mpr (hpav.imp fun h => h)
    refine ⟨i, heq ▸ hi, ?_, ?_, ?_, ?_⟩
    · rw [hroot, hunfold, ← hfi]
    · rw [hroot, hunfold, ← hfi,
        ← minimax_child_eq current hlen current current.other depth (heq ▸ hi)]
    · intro j hj
      rw [hroot, hunfold,
        ← minimax_child_eq current hlen current current.other depth (show j ∈ getAvailableMoves board by rw [heq]; exact hj)]
      have : f j ∈ f a :: as.map f := by
        rw [← List.map_cons]
        exact List.mem_map_of_mem f (heq ▸ hj)
      exact le_bestMax this
    · intro j hj hjs
      rw [hroot, hunfold] at hjs
      rw [← minimax_child_eq current hlen current current.other depth (show j ∈ getAvailableMoves board by rw [heq]; exact hj)] at hjs
      have hxm : f j ∈ f a :: (as.map f) := by
        rw [← List.map_cons]
        exact List.mem_map_of_mem f (heq ▸ hj)
      have hfirst := bestMax_first (as.map f) (f a)
        (by rw [← List.map_cons]; exact hpair) (f j) hxm hjs
      have hidx : (bestMax (f a) (as.map f)).1 = i := by rw [← hfi]
      rw [hidx] at hfirst
      exact hfirst
  · intro hw hf hcur
    subst hcur
    have hne : getAvailableMoves board ≠ [] := boardFull_eq_false_iff.mp hf
    rcases heq : getAvailableMoves board with _ | ⟨a, as⟩
    · exact absurd heq hne
    have hunfold :
        minimaxF b b.other 9 board b.other depth =
          ⟨some (bestMin ((fun i =>
              (i, (minimaxF b b.other 8 (board.set i (some b.other))
                b (depth + 1)).score)) a)
              (as.map fun i =>
              (i, (minimaxF b b.other 8 (board.set i (some b.other))
                b (depth + 1)).score))).1,
            (bestMin ((fun i =>
              (i, (minimaxF b b.other 8 (board.set i (some b.other))
                b (depth + 1)).score)) a)
              (as.map fun i =>
              (i, (minimaxF b b.other 8 (board.set i (some b.other))
                b (depth + 1)).score))).2⟩ := by
      conv_lhs => rw [minimaxF.eq_def]
      simp [hw, hf, heq, hbo]
    set f : Nat → Nat × Int := fun i =>
      (i, (minimaxF b b.other 8 (board.set i (some b.other)) b (depth + 1)).score) with hfdef
    have hroot : minimax board b.other b b.other depth =
        minimaxF b b.other 9 board b.other depth := by
      rw [minimax, hlen]
    have hmem : bestMin (f a) (as.map f) ∈ (a :: as).map f := by
      rw [List.map_cons]
      exact bestMin_mem _ _
    rcases List.mem_map.mp hmem with ⟨i, hi, hfi⟩
    have hpav := pairwise_getAvailableMoves board
    rw [heq] at hpav
    have hpair : List.Pairwise (fun p q : Nat × Int => p.1 < q.1) ((a :: as).map f) :=
      List.pairwise_map.mpr (hpav.imp fun h => h)
    refine ⟨i, heq ▸ hi, ?_, ?_, ?_, ?_⟩
    · rw [hroot, hunfold, ← hfi]
    · rw [hroot, hunfold, ← hfi,
        ← minimax_child_eq b hlen b.other b depth (heq ▸ hi)]
    · intro j hj
      rw [hroot, hunfold,
        ← minimax_child_eq b hlen b.other b depth (show j ∈ getAvailableMoves board by rw [heq]; exact hj)]
      have : f j ∈ f a :: as.map f := by
        rw [← List.map_cons]
        exact List.mem_map_of_mem f (heq ▸ hj)
      exact bestMin_le this
    · intro j hj hjs
      rw [hroot, hunfold] at hjs
      rw [← minimax_child_eq b hlen b.other b depth (show j ∈ getAvailableMoves board by rw [heq]; exact hj)] at hjs
      have hxm : f j ∈ f a :: (as.map f) := by
        rw [← List.map_cons]
        exact List.mem_map_of_mem f (heq ▸ hj)
      have hfirst := bestMin_first (as.map f) (f a)
        (by rw [← List.map_cons]; exact hpair) (f j) hxm hjs
      have hidx : (bestMin (f a) (as.map f)).1 = i := by rw [← hfi]
      rw [hidx] at hfirst
      exact hfirst


/-- Witness for C2 at the empty board with `X` to move as the bot symbol. -/
theorem c2_minimax_reference_witness :
    (emptyBoard : List Cell).length = 9 ∧
    ((getWinner emptyBoard = some Sym.X →
      minimax emptyBoard Sym.X Sym.X Sym.X.other 0 = ⟨none, (10 : Int) - (0 : Nat)⟩) ∧
    (getWinner emptyBoard = some Sym.X.other →
      minimax emptyBoard Sym.X Sym.X Sym.X.other 0 = ⟨none, ((0 : Nat) : Int) - 10⟩) ∧
    (getWinner emptyBoard = none → boardFull emptyBoard = true →
      minimax emptyBoard Sym.X Sym.X Sym.X.other 0 = ⟨none, 0⟩) ∧
    (getWinner emptyBoard = none → boardFull emptyBoard = false → Sym.X = Sym.X →
      ∃ i ∈ getAvailableMoves emptyBoard,
        (minimax emptyBoard Sym.X Sym.X Sym.X.other 0).index = some i ∧
        (minimax emptyBoard Sym.X Sym.X Sym.X.other 0).score =
          (minimax (emptyBoard.set i (some Sym.X)) Sym.X.other Sym.X Sym.X.other
            (0 + 1)).score ∧
        (∀ j ∈ getAvailableMoves emptyBoard,
          (minimax (emptyBoard.set j (some Sym.X)) Sym.X.other Sym.X Sym.X.other
              (0 + 1)).score ≤
            (minimax emptyBoard Sym.X Sym.X Sym.X.other 0).score) ∧
        (∀ j ∈ getAvailableMoves emptyBoard,
          (minimax (emptyBoard.set j (some Sym.X)) Sym.X.other Sym.X Sym.X.other
              (0 + 1)).score =
            (minimax emptyBoard Sym.X Sym.X Sym.X.other 0).score → i ≤ j)) ∧
    (getWinner emptyBoard = none → boardFull emptyBoard = false → Sym.X = Sym.X.other →
      ∃ i ∈ getAvailableMoves emptyBoard,
        (minimax emptyBoard Sym.X Sym.X Sym.X.other 0).index = some i ∧
        (minimax emptyBoard Sym.X Sym.X Sym.X.other 0).score =
          (minimax (emptyBoard.set i (some Sym.X.other)) Sym.X Sym.X Sym.X.other
            (0 + 1)).score ∧
        (∀ j ∈ getAvailableMoves emptyBoard,
          (minimax emptyBoard Sym.X Sym.X Sym.X.other 0).score ≤
            (minimax (emptyBoard.set j (some Sym.X.other)) Sym.X Sym.X Sym.X.other
              (0 + 1)).score) ∧
        (∀ j ∈ getAvailableMoves emptyBoard,
          (minimax (emptyBoard.set j (some Sym.X.other)) Sym.X Sym.X Sym.X.other
              (0 + 1)).score =
            (minimax emptyBoard Sym.X Sym.X Sym.X.other 0).score → i ≤ j))) :=
  ⟨rfl, c2_minimax_reference emptyBoard Sym.X Sym.X 0 rfl⟩


/-! ### The session server (`src/server/index.js`)

The socket handlers are embedded as pure functions.  The room registry
(`rooms`, a `Map`) becomes a function `String → Option Room`; the
per-connection `socket.data` becomes an optional `SBind`; `Math.random` in
the Easy bot is an oracle `rnd : Nat`.  Emissions (`socket.emit('game:error')`
and `io.to(roomId).emit('game:state')`) are returned as a list of `Emit`s;
`none` in a payload field stands for a missing or non-string (for `index`:
non-number) value. -/

inductive Mode where
  | pvp : Mode
  | bot : Mode
deriving DecidableEq, Repr

inductive Difficulty where
  | easy : Difficulty
  | hard : Difficulty
deriving DecidableEq, Repr

structure Player where
  id : String
  name : String
  isBot : Bool
deriving DecidableEq, Repr

structure Room where
  id : String
  board : List Cell
  turn : Sym
  playerX : Option Player
  playerO : Option Player
  sockets : List (String × Sym)
  winner : Option Sym
  isDraw : Bool
  mode : Mode
  difficulty : Difficulty
  botSymbol : Option Sym
deriving DecidableEq, Repr

abbrev Registry := String → Option Room

structure SBind where
  roomId : String
  symbol : Sym
  name : String
deriving DecidableEq, Repr

inductive Emit where
  | privErr : String → Emit
  | broadcast : String → Emit
deriving DecidableEq, Repr

def normalizeMode (value : Option String) : Mode :=
  if value = some "bot" then Mode.bot else Mode.pvp

def normalizeDifficulty (value : Option String) : Difficulty :=
  if value = some "hard" then Difficulty.hard else Difficulty.easy

def normalizeSymbol (value : Option String) : Sym :=
  if value = some "O" then Sym.O else Sym.X

def isWsChar (c : Char) : Bool := c = ' ' ∨ c = '\t' ∨ c = '\n' ∨ c = '\r'

/-- `value.trim()`, modelled over the character list (ASCII whitespace). -/
def trimStr (s : String) : String :=
  ⟨((s.data.dropWhile isWsChar).reverse.dropWhile isWsChar).reverse⟩

/-- `sanitize(value, fallback)`: non-strings and blank strings fall back; the
fallback itself may be absent (`socket.data.roomId` before any join). -/
def sanitize (value fallback : Option String) : Option String :=
  match value with
  | none => fallback
  | some v => if (trimStr v).length = 0 then fallback else some (trimStr v)

def createRoom (roomId : String) : Room :=
  { id := roomId
    board := emptyBoard
    turn := Sym.X
    playerX := none
    playerO := none
    sockets := []
    winner := none
    isDraw := false
    mode := Mode.pvp
    difficulty := Difficulty.easy
    botSymbol := none }

def regSet (reg : Registry) (roomId : String) (room : Room) : Registry :=
  fun k => if k = roomId then some room else reg k

/-- `room.players[symbol]`. -/
def getPlayer (room : Room) (s : Sym) : Option Player :=
  match s with
  | Sym.X => room.playerX
  | Sym.O => room.playerO

def setPlayer (room : Room) (s : Sym) (p : Option Player) : Room :=
  match s with
  | Sym.X => { room with playerX := p }
  | Sym.O => { room with playerO := p }

/-- `Map.set` on `room.sockets` (insertion order is irrelevant here). -/
def msSet (m : List (String × Sym)) (k : String) (v : Sym) : List (String × Sym) :=
  if (m.lookup k).isSome then m.map (fun q => if q.1 = k then (q.1, v) else q)
  else m ++ [(k, v)]

/-- `Map.delete` on `room.sockets`. -/
def msDel (m : List (String × Sym)) (k : String) : List (String × Sym) :=
  m.filter (fun q => decide (q.1 ≠ k))

/-- `isBot(player)`: present and carrying the sentinel id `"BOT"`. -/
def isBotP : Option Player → Bool
  | some p => p.id == "BOT"
  | none => false

def hasHuman (room : Room) : Bool :=
  (room.playerX.isSome && !(isBotP room.playerX)) ||
    (room.playerO.isSome && !(isBotP room.playerO))

def botName : Difficulty → String
  | Difficulty.easy => "Computer (easy)"
  | Difficulty.hard => "Computer (hard)"

def ensureBot (room : Room) (botSymbol : Sym) (difficulty : Option String) : Room :=
  let d := normalizeDifficulty difficulty
  let r := { room with
    mode := Mode.bot
    botSymbol := some botSymbol
    difficulty := d
    playerX := none
    playerO := none }
  setPlayer r botSymbol (some { id := "BOT", name := botName d, isBot := true })

def ensurePvp (room : Room) : Room :=
  let r := { room with mode := Mode.pvp, botSymbol := none, difficulty := Difficulty.easy }
  let r1 := if isBotP r.playerX then { r with playerX := none } else r
  if isBotP r1.playerO then { r1 with playerO := none } else r1

/-- `resetRoom`: board, turn and outcome only. -/
def resetRoom (room : Room) : Room :=
  { room with board := emptyBoard, turn := Sym.X, winner := none, isDraw := false }

/-- `applyMove(room, symbol, index)` — the state mutator. -/
def applyMove (room : Room) (symbol : Sym) (index : Nat) : Room :=
  let board := room.board.set index (some symbol)
  let winner := getWinner board
  let draw := decide (winner = none) && boardFull board
  { room with
    board := board
    winner := winner
    isDraw := draw
    turn := if winner = none ∧ draw = false then room.turn.other else room.turn }

/-- `getBotMove`: Easy picks `moves[rnd % moves.length]`, Hard runs `minimax`.
The `botSymbol = none` arm is unreachable from `maybeBotMove`, whose guard
`room.botSymbol !== room.turn` already rejects a `null` bot symbol. -/
def getBotMove (room : Room) (rnd : Nat) : Option Nat :=
  match getAvailableMoves room.board with
  | [] => none
  | m :: ms =>
    if room.difficulty = Difficulty.easy then
      some ((m :: ms).get ⟨rnd % (m :: ms).length, Nat.mod_lt _ (Nat.succ_pos _)⟩)
    else
      match room.botSymbol with
      | some b => (minimax room.board b b b.other 0).index
      | none => none

/-- `maybeBotMove`: returns the updated room and whether a bot move (and hence
an extra broadcast) happened. -/
def maybeBotMove (room : Room) (rnd : Nat) : Room × Bool :=
  match room.botSymbol with
  | none => (room, false)
  | some b =>
    if room.mode ≠ Mode.bot ∨ b ≠ room.turn then (room, false)
    else if room.winner ≠ none ∨ room.isDraw then (room, false)
    else
      match getBotMove room rnd with
      | none => (room, false)
      | some i => (applyMove room b i, true)

structure JoinPayload where
  roomId : Option String
  name : Option String
  mode : Option String
  difficulty : Option String
  symbol : Option String
deriving DecidableEq, Repr

inductive JoinOut where
  | err : String → JoinOut
  | ok : String → Sym → Mode → Difficulty → JoinOut
deriving DecidableEq, Repr

/-- The `game:join` handler.  Returns the updated registry, the connection's
new `socket.data` binding, and the acknowledgment. -/
def handleJoin (reg : Registry) (sd : Option SBind) (sid : String) (p : JoinPayload)
    (rnd : Nat) : Registry × Option SBind × JoinOut :=
  let roomId := (sanitize p.roomId (some "lobby")).getD "lobby"
  let name := (sanitize p.name (some "")).getD ""
  let mode := normalizeMode p.mode
  let preferredSymbol := normalizeSymbol p.symbol
  if name = "" then (reg, sd, JoinOut.err "Name is required.")
  else
    let room0 := match reg roomId with
      | some r => r
      | none => createRoom roomId
    let reg1 := regSet reg roomId room0
    let humanPresent := hasHuman room0
    let room1opt : Option Room :=
      if !humanPresent then
        let r := resetRoom room0
        some (if mode = Mode.bot then
            ensureBot r (if preferredSymbol = Sym.X then Sym.O else Sym.X) p.difficulty
          else ensurePvp r)
      else if room0.mode ≠ mode then none
      else some room0
    match room1opt with
    | none => (reg1, sd, JoinOut.err "Room mode does not match.")
    | some room1 =>
      if mode = Mode.bot then
        if humanPresent then (reg1, sd, JoinOut.err "Room is full.")
        else
          let room2 := setPlayer room1 preferredSymbol (some ⟨sid, name, false⟩)
          let room3 := { room2 with sockets := msSet room2.sockets sid preferredSymbol }
          let reg2 := regSet reg1 roomId room3
          let bm := maybeBotMove room3 rnd
          (regSet reg2 roomId bm.1, some ⟨roomId, preferredSymbol, name⟩,
            JoinOut.ok roomId preferredSymbol mode room3.difficulty)
      else
        match (if room1.playerX = none then some Sym.X
               else if room1.playerO = none then some Sym.O else none) with
        | none => (reg1, sd, JoinOut.err "Room is full.")
        | some symbol =>
          let room2 := setPlayer room1 symbol (some ⟨sid, name, false⟩)
          let room3 := { room2 with sockets := msSet room2.sockets sid symbol }
          (regSet reg1 roomId room3, some ⟨roomId, symbol, name⟩,
            JoinOut.ok roomId symbol mode room3.difficulty)

structure MovePayload where
  roomId : Option String
  index : Option Int
deriving DecidableEq, Repr

/-- The validation chain of the `game:move` handler, in source order. -/
def moveCheck (room : Room) (symbol : Sym) (index : Option Int) : Except String Nat :=
  if room.turn ≠ symbol then Except.error "Not your turn."
  else if room.winner ≠ none ∨ room.isDraw then Except.error "Game is finished."
  else
    match index with
    | none => Except.error "Invalid move."
    | some i =>
      if i < 0 ∨ 8 < i then Except.error "Invalid move."
      else if cellAt room.board i.toNat ≠ none then Except.error "Cell already taken."
      else Except.ok i.toNat

/-- The `game:move` handler body once room and symbol are resolved: validate,
apply, chain the bot reply in a bot room, broadcast. -/
def handleMoveRoom (reg : Registry) (rid : String) (room : Room) (symbol : Sym)
    (index : Option Int) (rnd : Nat) : Registry × List Emit :=
  match moveCheck room symbol index with
  | Except.error msg => (reg, [Emit.privErr msg])
  | Except.ok i =>
    let room1 := applyMove room symbol i
    let bm := if room1.mode = Mode.bot then maybeBotMove room1 rnd else (room1, false)
    (regSet reg rid bm.1,
      (if bm.2 then [Emit.broadcast rid] else []) ++ [Emit.broadcast rid])

/-- The `game:move` handler.  The affected room is resolved by
`sanitize(payload.roomId, socket.data.roomId)`. -/
def handleMove (reg : Registry) (sd : Option SBind) (p : MovePayload) (rnd : Nat) :
    Registry × List Emit :=
  let ridOpt := sanitize p.roomId (sd.map SBind.roomId)
  match ridOpt, sd with
  | some rid, some b =>
    match reg rid with
    | none => (reg, [Emit.privErr "Join a room first."])
    | some room => handleMoveRoom reg rid room b.symbol p.index rnd
  | _, _ => (reg, [Emit.privErr "Join a room first."])

structure ResetPayload where
  roomId : Option String
deriving DecidableEq, Repr

/-- The `game:reset` handler. -/
def handleReset (reg : Registry) (sd : Option SBind) (p : ResetPayload) (rnd : Nat) :
    Registry × List Emit :=
  let ridOpt := sanitize p.roomId (sd.map SBind.roomId)
  match ridOpt, sd with
  | some rid, some _ =>
    match reg rid with
    | none => (reg, [Emit.privErr "Join a room first."])
    | some room =>
      let room1 := resetRoom room
      let bm := maybeBotMove room1 rnd
      (regSet reg rid bm.1,
        [Emit.broadcast rid] ++ (if bm.2 then [Emit.broadcast rid] else []))
  | _, _ => (reg, [Emit.privErr "Join a room first."])

/-- The `disconnect` handler. -/
def handleDisconnect (reg : Registry) (sd : Option SBind) (sid : String) :
    Registry × List Emit :=
  match sd with
  | none => (reg, [])
  | some b =>
    match reg b.roomId with
    | none => (reg, [])
    | some room =>
      let room1 :=
        match room.sockets.lookup sid with
        | some symbol =>
          let r :=
            if (getPlayer room symbol).isSome && !(isBotP (getPlayer room symbol)) then
              setPlayer room symbol none
            else room
          { r with sockets := msDel r.sockets sid }
        | none => room
      let room2 := if hasHuman room1 then room1 else resetRoom room1
      (regSet reg b.roomId room2, [Emit.broadcast b.roomId])

/-- The whole server state: the registry plus every connection's
`socket.data`. -/
structure SrvState where
  rooms : Registry
  data : String → Option SBind

/-- One inbound event, handled to completion. -/
inductive SrvStep : SrvState → SrvState → Prop where
  | join (s : SrvState) (sid : String) (p : JoinPayload) (rnd : Nat) :
      SrvStep s
        { rooms := (handleJoin s.rooms (s.data sid) sid p rnd).1
          data := fun k => if k = sid then (handleJoin s.rooms (s.data sid) sid p rnd).2.1
            else s.data k }
  | move (s : SrvState) (sid : String) (p : MovePayload) (rnd : Nat) :
      SrvStep s
        { rooms := (handleMove s.rooms (s.data sid) p rnd).1, data := s.data }
  | reset (s : SrvState) (sid : String) (p : ResetPayload) (rnd : Nat) :
      SrvStep s
        { rooms := (handleReset s.rooms (s.data sid) p rnd).1, data := s.data }
  | disconnect (s : SrvState) (sid : String) :
      SrvStep s
        { rooms := (handleDisconnect s.rooms (s.data sid) sid).1
          data := fun k => if k = sid then none else s.data k }

def initState : SrvState := { rooms := fun _ => none, data := fun _ => none }

/-- Server states reachable from process start. -/
inductive Reach : SrvState → Prop where
  | init : Reach initState
  | step {s t : SrvState} : Reach s → SrvStep s t → Reach t


/-! ### Elementary facts about the room operations -/

theorem regSet_lookup (reg : Registry) (rid : String) (room : Room) (id : String) :
    regSet reg rid room id = if id = rid then some room else reg id := rfl

theorem setPlayer_board (room : Room) (s : Sym) (p : Option Player) :
    (setPlayer room s p).board = room.board := by
  cases s <;> rfl

theorem setPlayer_frame (room : Room) (s : Sym) (p : Option Player) :
    (setPlayer room s p).board = room.board ∧
    (setPlayer room s p).turn = room.turn ∧
    (setPlayer room s p).winner = room.winner ∧
    (setPlayer room s p).isDraw = room.isDraw ∧
    (setPlayer room s p).mode = room.mode ∧
    (setPlayer room s p).difficulty = room.difficulty ∧
    (setPlayer room s p).botSymbol = room.botSymbol := by
  cases s <;> exact ⟨rfl, rfl, rfl, rfl, rfl, rfl, rfl⟩

theorem ensureBot_board (room : Room) (b : Sym) (d : Option String) :
    (ensureBot room b d).board = room.board := by
  cases b <;> rfl

theorem ensurePvp_board (room : Room) :
    (ensurePvp room).board = room.board := by
  rw [ensurePvp]
  split <;> split <;> rfl

theorem applyMove_board (room : Room) (s : Sym) (i : Nat) :
    (applyMove room s i).board = room.board.set i (some s) := rfl

theorem applyMove_players (room : Room) (s : Sym) (i : Nat) :
    (applyMove room s i).playerX = room.playerX ∧
    (applyMove room s i).playerO = room.playerO ∧
    (applyMove room s i).mode = room.mode ∧
    (applyMove room s i).difficulty = room.difficulty ∧
    (applyMove room s i).botSymbol = room.botSymbol := ⟨rfl, rfl, rfl, rfl, rfl⟩

/-- A chosen bot move is a currently empty cell. -/
theorem getBotMove_mem {room : Room} {rnd : Nat} {i : Nat}
    (h : getBotMove room rnd = some i) : i ∈ getAvailableMoves room.board := by
  rw [getBotMove] at h
  split at h
  · cases h
  · next m ms hav =>
    by_cases hd : room.difficulty = Difficulty.easy
    · rw [if_pos hd] at h
      have hmem := List.get_mem (m :: ms) (rnd % (m :: ms).length) (Nat.mod_lt _ (Nat.succ_pos _))
      cases h
      rw [hav]
      exact hmem
    · rw [if_neg hd] at h
      split at h
      · next b hbs =>
        -- hard: the minimax root index is a legal move
        have hful : boardFull room.board = false :=
          boardFull_eq_false_iff.mpr (by rw [hav]; exact List.cons_ne_nil m ms)
        rcases hgw : getWinner room.board with _ | w
        · -- non-terminal root: `minimax` returns a member of the move list
          have hlenpos : room.board.length ≠ 0 := by
            intro h0
            have : room.board = [] := List.length_eq_zero.mp h0
            rw [this] at hful
            simp [boardFull] at hful
          rcases hlen : room.board.length with _ | l
          · exact absurd hlen hlenpos
          · have hnode := (minimaxF_bot_node b b.other l room.board 0 hgw hful).1
            rcases hnode with ⟨i0, hmem0, hidx, _⟩
            rw [minimax, hlen] at h
            rw [hidx] at h
            cases h
            exact hmem0
        · by_cases hwb : w = b
          · subst hwb
            rw [minimax, minimaxF_winner_bot hgw] at h
            cases h
          · have hwh : getWinner room.board = some b.other := by
              rw [hgw]
              rcases sym_eq_bot_or_other w b with h1 | h1
              · exact absurd h1 hwb
              · rw [h1]
            rw [minimax, minimaxF_winner_hum (Ne.symm (Sym.other_ne b)) hwh] at h
            cases h
      · cases h

/-- `maybeBotMove` either does nothing or applies the bot's symbol at a
currently empty cell. -/
theorem maybeBotMove_cases (room : Room) (rnd : Nat) :
    maybeBotMove room rnd = (room, false) ∨
    ∃ b i, room.botSymbol = some b ∧ i ∈ getAvailableMoves room.board ∧
      maybeBotMove room rnd = (applyMove room b i, true) := by
  rw [maybeBotMove]
  split
  · exact Or.inl rfl
  · next b hbs =>
    by_cases hg1 : room.mode ≠ Mode.bot ∨ b ≠ room.turn
    · rw [if_pos hg1]
      exact Or.inl rfl
    · rw [if_neg hg1]
      by_cases hg2 : room.winner ≠ none ∨ room.isDraw = true
      · rw [if_pos hg2]
        exact Or.inl rfl
      · rw [if_neg hg2]
        rcases hbm : getBotMove room rnd with _ | i
        · exact Or.inl rfl
        · exact Or.inr ⟨b, i, hbs, getBotMove_mem hbm, rfl⟩

theorem maybeBotMove_board_len (room : Room) (rnd : Nat) :
    (maybeBotMove room rnd).1.board.length = room.board.length := by
  rcases maybeBotMove_cases room rnd with h | ⟨b, i, _, _, h⟩ <;>
    rw [h] <;> simp [applyMove_board, List.length_set]

theorem maybeBotMove_players (room : Room) (rnd : Nat) :
    (maybeBotMove room rnd).1.playerX = room.playerX ∧
    (maybeBotMove room rnd).1.playerO = room.playerO := by
  rcases maybeBotMove_cases room rnd with h | ⟨b, i, _, _, h⟩ <;> rw [h] <;> exact ⟨rfl, rfl⟩

/-- What an accepted validation run guarantees, and the index it returns. -/
theorem moveCheck_ok {room : Room} {symbol : Sym} {index : Option Int} {i : Nat}
    (h : moveCheck room symbol index = Except.ok i) :
    room.turn = symbol ∧ room.winner = none ∧ room.isDraw = false ∧
    (∃ v : Int, index = some v ∧ ¬(v < 0 ∨ 8 < v) ∧ v.toNat = i) ∧
    cellAt room.board i = none := by
  rw [moveCheck.eq_def] at h
  by_cases h1 : room.turn ≠ symbol
  · rw [if_pos h1] at h
    cases h
  · rw [if_neg h1] at h
    by_cases h2 : room.winner ≠ none ∨ room.isDraw = true
    · rw [if_pos h2] at h
      cases h
    · rw [if_neg h2] at h
      push_neg at h1 h2
      rcases hidx : index with _ | v
      · rw [hidx] at h
        cases h
      · rw [hidx] at h
        have h' : (if v < 0 ∨ 8 < v then (Except.error "Invalid move." : Except String Nat)
            else if cellAt room.board v.toNat ≠ none then Except.error "Cell already taken."
            else Except.ok v.toNat) = Except.ok i := h
        by_cases h3 : v < 0 ∨ 8 < v
        · rw [if_pos h3] at h'
          cases h'
        · rw [if_neg h3] at h'
          by_cases h4 : cellAt room.board v.toNat ≠ none
          · rw [if_pos h4] at h'
            cases h'
          · rw [if_neg h4] at h'
            push_neg at h4
            cases h'
            exact ⟨h1, h2.1, by simpa using h2.2, ⟨v, rfl, h3, rfl⟩, h4⟩

/-- Filling an empty cell never disturbs an occupied one. -/
theorem applyMove_cell_preserve (room : Room) (s : Sym) {i : Nat}
    (hempty : cellAt room.board i = none) :
    ∀ j, cellAt room.board j ≠ none →
      cellAt (applyMove room s i).board j = cellAt room.board j := by
  intro j hj
  have hne : i ≠ j := by
    intro hij
    rw [hij] at hempty
    exact hj hempty
  rw [applyMove_board]
  exact cellAt_set_ne (some s) hne


/-- With the binding present and the resolved room found, the move handler
runs the per-room body. -/
theorem handleMove_found (reg : Registry) (b : SBind) (p : MovePayload) (rnd : Nat)
    (rid : String) (room : Room)
    (hrid : sanitize p.roomId (some b.roomId) = some rid)
    (hroom : reg rid = some room) :
    handleMove reg (some b) p rnd = handleMoveRoom reg rid room b.symbol p.index rnd := by
  simp only [handleMove, Option.map_some', hrid, hroom]

/-- **C6.** The state mutator writes the moving symbol at the index, recomputes
the winner on the resulting board with the evaluator, sets the draw flag
exactly when the resulting board is full with no winner, and flips the turn
exactly when the outcome stays undecided on a non-full board; the full board
`[X,X,O,O,O,X,X,O,X]` of scenario B comes out a draw with no winner. -/
theorem c6_apply_move (room : Room) (s : Sym) (i : Nat) :
    (applyMove room s i).board = room.board.set i (some s) ∧
    (applyMove room s i).winner = getWinner (room.board.set i (some s)) ∧
    ((applyMove room s i).isDraw = true ↔
      getWinner (room.board.set i (some s)) = none ∧
        boardFull (room.board.set i (some s)) = true) ∧
    ((applyMove room s i).turn =
      if getWinner (room.board.set i (some s)) = none ∧
          boardFull (room.board.set i (some s)) = false
        then room.turn.other else room.turn) ∧
    getWinner [some Sym.X, some Sym.X, some Sym.O, some Sym.O, some Sym.O, some Sym.X,
      some Sym.X, some Sym.O, some Sym.X] = none ∧
    (applyMove { createRoom "lobby" with
        board := [some Sym.X, some Sym.X, some Sym.O, some Sym.O, some Sym.O, some Sym.X,
          some Sym.X, some Sym.O, none] } Sym.X 8).winner = none ∧
    (applyMove { createRoom "lobby" with
        board := [some Sym.X, some Sym.X, some Sym.O, some Sym.O, some Sym.O, some Sym.X,
          some Sym.X, some Sym.O, none] } Sym.X 8).isDraw = true := by
  refine ⟨rfl, rfl, ?_, ?_, by decide, by decide, by decide⟩
  · simp [applyMove, Bool.and_eq_true, decide_eq_true_eq]
  · by_cases hw : getWinner (room.board.set i (some s)) = none <;>
      by_cases hf : boardFull (room.board.set i (some s)) <;>
      simp [applyMove, hw, hf]

/-- **C5.** A bound connection's move request against an existing room is
rejected with a distinct private reason in exactly the source order — wrong
turn, finished game, out-of-range index, occupied cell — every rejection
emitting a single private error and leaving the registry untouched; otherwise
it is accepted, the registry changes at the resolved room only, and only
broadcasts are emitted. -/
theorem c5_move_validation (reg : Registry) (b : SBind) (p : MovePayload) (rnd : Nat)
    (rid : String) (room : Room)
    (hrid : sanitize p.roomId (some b.roomId) = some rid)
    (hroom : reg rid = some room) :
    (room.turn ≠ b.symbol →
      handleMove reg (some b) p rnd = (reg, [Emit.privErr "Not your turn."])) ∧
    (room.turn = b.symbol → (room.winner ≠ none ∨ room.isDraw = true) →
      handleMove reg (some b) p rnd = (reg, [Emit.privErr "Game is finished."])) ∧
    (room.turn = b.symbol → room.winner = none → room.isDraw = false →
      (p.index = none ∨ ∃ v : Int, p.index = some v ∧ (v < 0 ∨ 8 < v)) →
      handleMove reg (some b) p rnd = (reg, [Emit.privErr "Invalid move."])) ∧
    (∀ v : Int, room.turn = b.symbol → room.winner = none → room.isDraw = false →
      p.index = some v → ¬(v < 0 ∨ 8 < v) → cellAt room.board v.toNat ≠ none →
      handleMove reg (some b) p rnd = (reg, [Emit.privErr "Cell already taken."])) ∧
    (∀ v : Int, room.turn = b.symbol → room.winner = none → room.isDraw = false →
      p.index = some v → ¬(v < 0 ∨ 8 < v) → cellAt room.board v.toNat = none →
      ∃ room' es, handleMove reg (some b) p rnd = (regSet reg rid room', es) ∧
        Emit.broadcast rid ∈ es ∧ ∀ msg, Emit.privErr msg ∉ es) := by
  have hfound := handleMove_found reg b p rnd rid room hrid hroom
  refine ⟨?_, ?_, ?_, ?_, ?_⟩
  · intro h1
    have hmc : moveCheck room b.symbol p.index = Except.error "Not your turn." := by
      rw [moveCheck.eq_def, if_pos h1]
    rw [hfound]
    simp only [handleMoveRoom, hmc]
  · intro h1 h2
    have hmc : moveCheck room b.symbol p.index = Except.error "Game is finished." := by
      rw [moveCheck.eq_def, if_neg (by simp [h1]), if_pos h2]
    rw [hfound]
    simp only [handleMoveRoom, hmc]
  · intro h1 h2 h3 h4
    have hmc : moveCheck room b.symbol p.index = Except.error "Invalid move." := by
      rw [moveCheck.eq_def, if_neg (by simp [h1]), if_neg (by simp [h2, h3])]
      rcases h4 with h4 | ⟨v, hv, hrange⟩
      · rw [h4]
      · rw [hv]
        simp only [if_pos hrange]
    rw [hfound]
    simp only [handleMoveRoom, hmc]
  · intro v h1 h2 h3 hidx hrange htaken
    have hmc : moveCheck room b.symbol p.index = Except.error "Cell already taken." := by
      rw [moveCheck.eq_def, if_neg (by simp [h1]), if_neg (by simp [h2, h3]), hidx]
      simp only [if_neg hrange, if_pos htaken]
    rw [hfound]
    simp only [handleMoveRoom, hmc]
  · intro v h1 h2 h3 hidx hrange hfree
    have hmc : moveCheck room b.symbol p.index = Except.ok v.toNat := by
      rw [moveCheck.eq_def, if_neg (by simp [h1]), if_neg (by simp [h2, h3]), hidx]
      simp only [if_neg hrange, if_neg (not_not_intro hfree)]
    rw [hfound]
    simp only [handleMoveRoom, hmc]
    refine ⟨_, _, rfl, ?_, ?_⟩
    · split <;> simp
    · intro msg
      split <;> simp


/-! ### Claim C3: which room does a move affect? -/

def c3RoomB : Room := { createRoom "B" with playerX := some ⟨"bob", "Bob", false⟩ }

def c3Reg : Registry := regSet (regSet (fun _ => none) "A" (createRoom "A")) "B" c3RoomB

/-- Counterexample to C3: a connection bound to room `"A"` sends a move whose
payload names room `"B"`; the payload room is validated and mutated while the
bound room stays untouched, so a payload `roomId` does change which room is
affected. -/
theorem c3_counterexample :
    (some ⟨"A", Sym.X, "Mallory"⟩ : Option SBind).map SBind.roomId = some "A" ∧
    (handleMove c3Reg (some ⟨"A", Sym.X, "Mallory"⟩) ⟨some "B", some 0⟩ 0).1 "B" ≠
      c3Reg "B" ∧
    (handleMove c3Reg (some ⟨"A", Sym.X, "Mallory"⟩) ⟨some "B", some 0⟩ 0).1 "A" =
      c3Reg "A" := by
  refine ⟨rfl, ?_, ?_⟩ <;> decide

/-- **C3** (amended).  The room a move request validates and mutates is the one
named by `sanitize(payload.roomId, binding.roomId)` — a non-blank payload
`roomId` overrides the binding — and no other room of the registry is ever
affected. -/
theorem c3_resolved_room_only (reg : Registry) (sd : Option SBind) (p : MovePayload)
    (rnd : Nat) (id : String)
    (hid : sanitize p.roomId (sd.map SBind.roomId) ≠ some id) :
    (handleMove reg sd p rnd).1 id = reg id := by
  rw [handleMove.eq_def]
  rcases hsan : sanitize p.roomId (sd.map SBind.roomId) with _ | rid
  · rcases sd with _ | b <;> rfl
  · rcases sd with _ | b
    · rfl
    · have hne : ¬(id = rid) := by
        intro h
        rw [h] at hid
        exact hid hsan
      show (match reg rid with
          | none => (reg, [Emit.privErr "Join a room first."])
          | some room => handleMoveRoom reg rid room b.symbol p.index rnd).1 id = reg id
      rcases hr : reg rid with _ | room
      · rfl
      · show (handleMoveRoom reg rid room b.symbol p.index rnd).1 id = reg id
        rw [handleMoveRoom.eq_def]
        rcases hmc : moveCheck room b.symbol p.index with msg | i
        · rfl
        · exact if_neg hne

/-- Witness for the amended C3: an unbound connection naming room `"B"`
cannot affect room `"A"`. -/
theorem c3_resolved_room_only_witness :
    sanitize (⟨some "B", some 0⟩ : MovePayload).roomId
        ((none : Option SBind).map SBind.roomId) ≠ some "A" ∧
    (handleMove (fun _ => none) none ⟨some "B", some 0⟩ 0).1 "A" =
      (fun _ => (none : Option Room)) "A" :=
  ⟨by decide, c3_resolved_room_only (fun _ => none) none ⟨some "B", some 0⟩ 0 "A" (by decide)⟩


/-! ### Claim C4: BotMatch joins into a BotMatch room -/

theorem getPlayer_setPlayer_same (room : Room) (s : Sym) (p : Option Player) :
    getPlayer (setPlayer room s p) s = p := by
  cases s <;> rfl

theorem ensureBot_difficulty (room : Room) (b : Sym) (d : Option String) :
    (ensureBot room b d).difficulty = normalizeDifficulty d := by
  cases b <;> rfl

theorem setPlayer_difficulty (room : Room) (s : Sym) (p : Option Player) :
    (setPlayer room s p).difficulty = room.difficulty := by
  cases s <;> rfl

theorem maybeBotMove_getPlayer (room : Room) (rnd : Nat) (s : Sym) :
    getPlayer (maybeBotMove room rnd).1 s = getPlayer room s := by
  rcases maybeBotMove_cases room rnd with h | ⟨b, i, _, _, h⟩ <;> rw [h] <;> cases s <;> rfl

def c4Room : Room :=
  { createRoom "r" with
    playerX := some ⟨"alice", "Alice", false⟩
    playerO := some ⟨"BOT", "Computer (hard)", true⟩
    sockets := [("alice", Sym.X)]
    mode := Mode.bot
    difficulty := Difficulty.hard
    botSymbol := some Sym.O }

/-- Counterexample to C4: a BotMatch join preferring seat `O` of a BotMatch
room whose `O` seat holds the automated occupant (a human sits only at `X`) is
rejected with "Room is full.", although the preferred seat is not
human-occupied. -/
theorem c4_counterexample :
    c4Room.mode = Mode.bot ∧
    normalizeMode (some "bot") = Mode.bot ∧
    normalizeSymbol (some "O") = Sym.O ∧
    isBotP (getPlayer c4Room Sym.O) = true ∧
    (handleJoin (regSet (fun _ => none) "r" c4Room) none "eve"
        ⟨some "r", some "Eve", some "bot", some "hard", some "O"⟩ 0).2.2 =
      JoinOut.err "Room is full." := by
  refine ⟨rfl, rfl, rfl, rfl, ?_⟩
  decide

/-- **C4** (amended).  A BotMatch join addressed to a room already in BotMatch
mode is rejected with "Room is full." exactly when a human occupies either
seat (even when the preferred seat holds only the automated occupant);
otherwise the room is reconfigured and the requester is assigned exactly
`preferredSymbol`. -/
theorem c4_bot_join (reg : Registry) (sd : Option SBind) (sid : String)
    (p : JoinPayload) (rnd : Nat) (rid : String) (room : Room) (nm : String)
    (hrid : (sanitize p.roomId (some "lobby")).getD "lobby" = rid)
    (hname : (sanitize p.name (some "")).getD "" = nm)
    (hnm : nm ≠ "")
    (hmode : normalizeMode p.mode = Mode.bot)
    (hroom : reg rid = some room)
    (hroommode : room.mode = Mode.bot) :
    (hasHuman room = true →
      handleJoin reg sd sid p rnd =
        (regSet reg rid room, sd, JoinOut.err "Room is full.")) ∧
    (hasHuman room = false →
      (handleJoin reg sd sid p rnd).2.1 = some ⟨rid, normalizeSymbol p.symbol, nm⟩ ∧
      (handleJoin reg sd sid p rnd).2.2 =
        JoinOut.ok rid (normalizeSymbol p.symbol) Mode.bot
          (normalizeDifficulty p.difficulty) ∧
      ∃ room', (handleJoin reg sd sid p rnd).1 rid = some room' ∧
        getPlayer room' (normalizeSymbol p.symbol) = some ⟨sid, nm, false⟩) := by
  constructor
  · intro hh
    simp only [handleJoin, hrid, hname, hmode, hroom, hh, hroommode]
    simp [hnm]
  · intro hh
    simp only [handleJoin, hrid, hname, hmode, hroom, hh, hroommode]
    simp [hnm, maybeBotMove_getPlayer, getPlayer_setPlayer_same, regSet,
      setPlayer_difficulty, ensureBot_difficulty]
    cases hns : normalizeSymbol p.symbol <;> simp [getPlayer, setPlayer]


def c4RoomFree : Room :=
  { createRoom "r" with
    playerO := some ⟨"BOT", "Computer (hard)", true⟩
    mode := Mode.bot
    difficulty := Difficulty.hard
    botSymbol := some Sym.O }

/-- Witness for the amended C4 at a human-free BotMatch room. -/
theorem c4_bot_join_witness :
    (sanitize (some "r") (some "lobby")).getD "lobby" = "r" ∧
    (sanitize (some "Eve") (some "")).getD "" = "Eve" ∧
    ("Eve" : String) ≠ "" ∧
    normalizeMode (some "bot") = Mode.bot ∧
    regSet (fun _ => none) "r" c4RoomFree "r" = some c4RoomFree ∧
    c4RoomFree.mode = Mode.bot ∧
    ((hasHuman c4RoomFree = true →
      handleJoin (regSet (fun _ => none) "r" c4RoomFree) none "eve"
          ⟨some "r", some "Eve", some "bot", some "hard", some "O"⟩ 0 =
        (regSet (regSet (fun _ => none) "r" c4RoomFree) "r" c4RoomFree, none,
          JoinOut.err "Room is full.")) ∧
    (hasHuman c4RoomFree = false →
      (handleJoin (regSet (fun _ => none) "r" c4RoomFree) none "eve"
          ⟨some "r", some "Eve", some "bot", some "hard", some "O"⟩ 0).2.1 =
        some ⟨"r", normalizeSymbol (some "O"), "Eve"⟩ ∧
      (handleJoin (regSet (fun _ => none) "r" c4RoomFree) none "eve"
          ⟨some "r", some "Eve", some "bot", some "hard", some "O"⟩ 0).2.2 =
        JoinOut.ok "r" (normalizeSymbol (some "O")) Mode.bot
          (normalizeDifficulty (some "hard")) ∧
      ∃ room', (handleJoin (regSet (fun _ => none) "r" c4RoomFree) none "eve"
          ⟨some "r", some "Eve", some "bot", some "hard", some "O"⟩ 0).1 "r" =
            some room' ∧
        getPlayer room' (normalizeSymbol (some "O")) = some ⟨"eve", "Eve", false⟩)) :=
  ⟨by decide, by decide, by decide, rfl, by decide, rfl,
    c4_bot_join (regSet (fun _ => none) "r" c4RoomFree) none "eve"
      ⟨some "r", some "Eve", some "bot", some "hard", some "O"⟩ 0 "r" c4RoomFree "Eve"
      (by decide) (by decide) (by decide) rfl (by decide) rfl⟩

/-! ### Claim C10: a second PvP join from the seat-X connection -/

/-- **C10.** A connection already seated at `X` of a PvP room whose `O` seat is
empty can join the same room again with a valid PvP request: the join succeeds
with symbol `O`, rebinds the connection to `O`, and afterwards both seats hold
that single connection's id. -/
theorem c10_pvp_double_join (reg : Registry) (sd : Option SBind) (sid : String)
    (p : JoinPayload) (rnd : Nat) (rid : String) (room : Room) (nm : String)
    (px : Player)
    (hrid : (sanitize p.roomId (some "lobby")).getD "lobby" = rid)
    (hname : (sanitize p.name (some "")).getD "" = nm)
    (hnm : nm ≠ "")
    (hmode : normalizeMode p.mode = Mode.pvp)
    (hroom : reg rid = some room)
    (hroommode : room.mode = Mode.pvp)
    (hx : room.playerX = some px)
    (hxid : px.id = sid)
    (hxh : px.id ≠ "BOT")
    (ho : room.playerO = none) :
    (handleJoin reg sd sid p rnd).2.2 = JoinOut.ok rid Sym.O Mode.pvp room.difficulty ∧
    (handleJoin reg sd sid p rnd).2.1 = some ⟨rid, Sym.O, nm⟩ ∧
    ∃ room', (handleJoin reg sd sid p rnd).1 rid = some room' ∧
      room'.playerX = some px ∧ room'.playerO = some ⟨sid, nm, false⟩ ∧ px.id = sid := by
  have hbf : (px.id == "BOT") = false := beq_eq_false_iff_ne.mpr hxh
  have hhh : hasHuman room = true := by
    simp [hasHuman, hx, isBotP, hbf]
  simp only [handleJoin, hrid, hname, hmode, hroom, hhh, hroommode]
  simp [hnm, hx, ho, setPlayer, setPlayer_difficulty, regSet, hxid]


def c10Room : Room := { createRoom "room1" with playerX := some ⟨"carl", "Carl", false⟩ }

/-- Witness for C10: Carl, already seated at `X` of `room1`, joins again. -/
theorem c10_pvp_double_join_witness :
    (sanitize (some "room1") (some "lobby")).getD "lobby" = "room1" ∧
    (sanitize (some "Carl") (some "")).getD "" = "Carl" ∧
    ("Carl" : String) ≠ "" ∧
    normalizeMode none = Mode.pvp ∧
    regSet (fun _ => none) "room1" c10Room "room1" = some c10Room ∧
    c10Room.mode = Mode.pvp ∧
    c10Room.playerX = some ⟨"carl", "Carl", false⟩ ∧
    (Player.mk "carl" "Carl" false).id = "carl" ∧
    (Player.mk "carl" "Carl" false).id ≠ "BOT" ∧
    c10Room.playerO = none ∧
    ((handleJoin (regSet (fun _ => none) "room1" c10Room) none "carl"
        ⟨some "room1", some "Carl", none, none, none⟩ 0).2.2 =
      JoinOut.ok "room1" Sym.O Mode.pvp c10Room.difficulty ∧
    (handleJoin (regSet (fun _ => none) "room1" c10Room) none "carl"
        ⟨some "room1", some "Carl", none, none, none⟩ 0).2.1 =
      some ⟨"room1", Sym.O, "Carl"⟩ ∧
    ∃ room', (handleJoin (regSet (fun _ => none) "room1" c10Room) none "carl"
        ⟨some "room1", some "Carl", none, none, none⟩ 0).1 "room1" = some room' ∧
      room'.playerX = some ⟨"carl", "Carl", false⟩ ∧
      room'.playerO = some ⟨"carl", "Carl", false⟩ ∧
      (Player.mk "carl" "Carl" false).id = "carl") :=
  ⟨by decide, by decide, by decide, rfl, by decide, rfl, rfl, rfl, by decide, rfl,
    c10_pvp_double_join (regSet (fun _ => none) "room1" c10Room) none "carl"
      ⟨some "room1", some "Carl", none, none, none⟩ 0 "room1" c10Room "Carl"
      ⟨"carl", "Carl", false⟩ (by decide) (by decide) (by decide) rfl (by decide) rfl rfl
      rfl (by decide) rfl⟩

/-! ### Claim C9: the bot engine under its preconditions -/

/-- **C9.** When the decision engine runs under its stated preconditions — a
9-cell board, BotMatch mode, outcome undecided and freshly re-evaluated, and
the turn on the automated seat — an empty cell exists (the defensive
no-empty-cell `none` branch is unreachable), and the returned choice is the
index of a currently empty cell in `[0,8]`, on both difficulties. -/
theorem c9_bot_engine_safe (room : Room) (rnd : Nat)
    (hlen : room.board.length = 9)
    (hmode : room.mode = Mode.bot)
    (hwin : room.winner = none)
    (hdraw : room.isDraw = false)
    (hturn : room.botSymbol = some room.turn)
    (hfreshw : room.winner = getWinner room.board)
    (hfreshd : room.isDraw = (decide (getWinner room.board = none) && boardFull room.board)) :
    getAvailableMoves room.board ≠ [] ∧
    ∃ i, getBotMove room rnd = some i ∧ i < 9 ∧ cellAt room.board i = none := by
  have hgw : getWinner room.board = none := hfreshw.symm.trans hwin
  have hful : boardFull room.board = false := by
    rw [hfreshd, hgw] at hdraw
    simpa using hdraw
  have hne := boardFull_eq_false_iff.mp hful
  rcases hav : getAvailableMoves room.board with _ | ⟨m, ms⟩
  · exact absurd hav hne
  · refine ⟨by simp, ?_⟩
    by_cases hd : room.difficulty = Difficulty.easy
    · have hmem := List.get_mem (m :: ms) (rnd % (m :: ms).length)
        (Nat.mod_lt _ (Nat.succ_pos _))
      have hmav : (m :: ms).get ⟨rnd % (m :: ms).length,
          Nat.mod_lt _ (Nat.succ_pos _)⟩ ∈ getAvailableMoves room.board := by
        rw [hav]
        exact hmem
      rcases mem_getAvailableMoves.mp hmav with ⟨hlt, hcell⟩
      refine ⟨_, ?_, ?_, hcell⟩
      · rw [getBotMove, hav]
        simp [hd]
      · rw [hlen] at hlt
        exact hlt
    · obtain ⟨i, himem, hidx, -⟩ :=
        (minimaxF_bot_node room.turn room.turn.other 8 room.board 0 hgw hful).1
      rcases mem_getAvailableMoves.mp himem with ⟨hlt, hcell⟩
      refine ⟨i, ?_, ?_, hcell⟩
      · rw [getBotMove, hav]
        have hroot : (minimax room.board room.turn room.turn room.turn.other 0).index =
            some i := by
          rw [minimax, hlen]
          exact hidx
        simp [hd, hturn, hroot]
      · rw [hlen] at hlt
        exact hlt

def c9Room : Room :=
  { createRoom "r" with
    playerX := some ⟨"carl", "Carl", false⟩
    playerO := some ⟨"BOT", "Computer (easy)", true⟩
    mode := Mode.bot
    botSymbol := some Sym.X
    turn := Sym.X }

/-- Witness for C9 on a fresh Easy BotMatch room with the bot seated at `X`. -/
theorem c9_bot_engine_safe_witness :
    c9Room.board.length = 9 ∧
    c9Room.mode = Mode.bot ∧
    c9Room.winner = none ∧
    c9Room.isDraw = false ∧
    c9Room.botSymbol = some c9Room.turn ∧
    c9Room.winner = getWinner c9Room.board ∧
    c9Room.isDraw = (decide (getWinner c9Room.board = none) && boardFull c9Room.board) ∧
    (getAvailableMoves c9Room.board ≠ [] ∧
      ∃ i, getBotMove c9Room 7 = some i ∧ i < 9 ∧ cellAt c9Room.board i = none) :=
  ⟨by decide, rfl, rfl, rfl, rfl, by decide, by decide,
    c9_bot_engine_safe c9Room 7 (by decide) rfl rfl rfl rfl (by decide) (by decide)⟩


/-! ### Claim C8: the frame of a full room reset -/

/-- The disconnect handler's seat cleanup touches only seats and sockets. -/
theorem cleaned_frame (room : Room) (symbol : Sym) (sid : String) :
    ({ (if ((getPlayer room symbol).isSome && !(isBotP (getPlayer room symbol))) = true
        then setPlayer room symbol none else room) with
      sockets := msDel (if ((getPlayer room symbol).isSome &&
          !(isBotP (getPlayer room symbol))) = true
        then setPlayer room symbol none else room).sockets sid } : Room).board =
      room.board ∧
    ({ (if ((getPlayer room symbol).isSome && !(isBotP (getPlayer room symbol))) = true
        then setPlayer room symbol none else room) with
      sockets := msDel (if ((getPlayer room symbol).isSome &&
          !(isBotP (getPlayer room symbol))) = true
        then setPlayer room symbol none else room).sockets sid } : Room).turn =
      room.turn ∧
    ({ (if ((getPlayer room symbol).isSome && !(isBotP (getPlayer room symbol))) = true
        then setPlayer room symbol none else room) with
      sockets := msDel (if ((getPlayer room symbol).isSome &&
          !(isBotP (getPlayer room symbol))) = true
        then setPlayer room symbol none else room).sockets sid } : Room).winner =
      room.winner ∧
    ({ (if ((getPlayer room symbol).isSome && !(isBotP (getPlayer room symbol))) = true
        then setPlayer room symbol none else room) with
      sockets := msDel (if ((getPlayer room symbol).isSome &&
          !(isBotP (getPlayer room symbol))) = true
        then setPlayer room symbol none else room).sockets sid } : Room).isDraw =
      room.isDraw ∧
    ({ (if ((getPlayer room symbol).isSome && !(isBotP (getPlayer room symbol))) = true
        then setPlayer room symbol none else room) with
      sockets := msDel (if ((getPlayer room symbol).isSome &&
          !(isBotP (getPlayer room symbol))) = true
        then setPlayer room symbol none else room).sockets sid } : Room).mode =
      room.mode ∧
    ({ (if ((getPlayer room symbol).isSome && !(isBotP (getPlayer room symbol))) = true
        then setPlayer room symbol none else room) with
      sockets := msDel (if ((getPlayer room symbol).isSome &&
          !(isBotP (getPlayer room symbol))) = true
        then setPlayer room symbol none else room).sockets sid } : Room).difficulty =
      room.difficulty ∧
    ({ (if ((getPlayer room symbol).isSome && !(isBotP (getPlayer room symbol))) = true
        then setPlayer room symbol none else room) with
      sockets := msDel (if ((getPlayer room symbol).isSome &&
          !(isBotP (getPlayer room symbol))) = true
        then setPlayer room symbol none else room).sockets sid } : Room).botSymbol =
      room.botSymbol := by
  by_cases hc : ((getPlayer room symbol).isSome && !(isBotP (getPlayer room symbol))) = true
  · rw [if_pos hc]
    cases symbol <;> exact ⟨rfl, rfl, rfl, rfl, rfl, rfl, rfl⟩
  · rw [if_neg hc]
    exact ⟨rfl, rfl, rfl, rfl, rfl, rfl, rfl⟩

/-- **C8.** A full room reset — the reset step of an honored reset request, or
the cleanup after the last human occupant disconnects — sets exactly the board
(to 9 empty cells), the turn (to `X`) and the outcome (to undecided), and
changes nothing else: mode, difficulty, bot symbol, seats and socket map stay
as they were immediately before the reset step.  The reset handler applies
exactly `resetRoom` before the chained bot move, and the disconnect handler
applies exactly `resetRoom` to the seat-cleaned room when no human remains. -/
theorem c8_reset_frame (room : Room) (reg : Registry) (b : SBind) (p : ResetPayload)
    (rnd : Nat) (rid : String) (sid : String)
    (hrid : sanitize p.roomId (some b.roomId) = some rid)
    (hbrid : b.roomId = rid)
    (hroom : reg rid = some room) :
    ((resetRoom room).board = emptyBoard ∧ (resetRoom room).board.length = 9 ∧
     (resetRoom room).turn = Sym.X ∧
     (resetRoom room).winner = none ∧ (resetRoom room).isDraw = false ∧
     (resetRoom room).mode = room.mode ∧ (resetRoom room).difficulty = room.difficulty ∧
     (resetRoom room).botSymbol = room.botSymbol ∧
     (resetRoom room).playerX = room.playerX ∧ (resetRoom room).playerO = room.playerO ∧
     (resetRoom room).sockets = room.sockets) ∧
    (handleReset reg (some b) p rnd =
      (regSet reg rid (maybeBotMove (resetRoom room) rnd).1,
        [Emit.broadcast rid] ++
          (if (maybeBotMove (resetRoom room) rnd).2 then [Emit.broadcast rid] else []))) ∧
    (∃ r1, (r1.board = room.board ∧ r1.turn = room.turn ∧ r1.winner = room.winner ∧
        r1.isDraw = room.isDraw ∧ r1.mode = room.mode ∧
        r1.difficulty = room.difficulty ∧ r1.botSymbol = room.botSymbol) ∧
      (handleDisconnect reg (some b) sid).1 rid =
        some (if hasHuman r1 then r1 else resetRoom r1)) := by
  subst hbrid
  refine ⟨⟨rfl, rfl, rfl, rfl, rfl, rfl, rfl, rfl, rfl, rfl, rfl⟩, ?_, ?_⟩
  · simp only [handleReset, Option.map_some', hrid, hroom]
  · simp only [handleDisconnect, hroom]
    rcases hlk : room.sockets.lookup sid with _ | symbol
    · exact ⟨room, ⟨rfl, rfl, rfl, rfl, rfl, rfl, rfl⟩, by rw [regSet_lookup, if_pos rfl]⟩
    · exact ⟨_, cleaned_frame room symbol sid, by rw [regSet_lookup, if_pos rfl]⟩

/-- Witness for C8 on a PvP room holding one human. -/
theorem c8_reset_frame_witness :
    sanitize (none : Option String) (some "room1") = some "room1" ∧
    (SBind.mk "room1" Sym.X "Carl").roomId = "room1" ∧
    regSet (fun _ => none) "room1" c10Room "room1" = some c10Room ∧
    (((resetRoom c10Room).board = emptyBoard ∧ (resetRoom c10Room).board.length = 9 ∧
      (resetRoom c10Room).turn = Sym.X ∧
      (resetRoom c10Room).winner = none ∧ (resetRoom c10Room).isDraw = false ∧
      (resetRoom c10Room).mode = c10Room.mode ∧
      (resetRoom c10Room).difficulty = c10Room.difficulty ∧
      (resetRoom c10Room).botSymbol = c10Room.botSymbol ∧
      (resetRoom c10Room).playerX = c10Room.playerX ∧
      (resetRoom c10Room).playerO = c10Room.playerO ∧
      (resetRoom c10Room).sockets = c10Room.sockets) ∧
    (handleReset (regSet (fun _ => none) "room1" c10Room) (some ⟨"room1", Sym.X, "Carl"⟩)
        ⟨none⟩ 3 =
      (regSet (regSet (fun _ => none) "room1" c10Room) "room1"
          (maybeBotMove (resetRoom c10Room) 3).1,
        [Emit.broadcast "room1"] ++
          (if (maybeBotMove (resetRoom c10Room) 3).2 then [Emit.broadcast "room1"]
            else []))) ∧
    (∃ r1, (r1.board = c10Room.board ∧ r1.turn = c10Room.turn ∧
        r1.winner = c10Room.winner ∧ r1.isDraw = c10Room.isDraw ∧
        r1.mode = c10Room.mode ∧ r1.difficulty = c10Room.difficulty ∧
        r1.botSymbol = c10Room.botSymbol) ∧
      (handleDisconnect (regSet (fun _ => none) "room1" c10Room)
          (some ⟨"room1", Sym.X, "Carl"⟩) "carl").1 "room1" =
        some (if hasHuman r1 then r1 else resetRoom r1))) :=
  ⟨by decide, rfl, by decide,
    c8_reset_frame c10Room (regSet (fun _ => none) "room1" c10Room)
      ⟨"room1", Sym.X, "Carl"⟩ ⟨none⟩ 3 "room1" "carl" (by decide) rfl (by decide)⟩


/-! ### Claim C7: board shape and write-once cells -/

theorem handleMove_leninv (reg : Registry) (sd : Option SBind) (p : MovePayload) (rnd : Nat)
    (hinv : ∀ id r, reg id = some r → r.board.length = 9) :
    ∀ id r, (handleMove reg sd p rnd).1 id = some r → r.board.length = 9 := by
  intro id r h
  rcases sd with _ | b
  · rw [handleMove.eq_def] at h
    rcases hsan : sanitize p.roomId (Option.map SBind.roomId none) with _ | rid <;>
      rw [hsan] at h <;> exact hinv id r h
  · rw [handleMove.eq_def] at h
    rcases hsan : sanitize p.roomId (Option.map SBind.roomId (some b)) with _ | rid
    · rw [hsan] at h
      exact hinv id r h
    · rw [hsan] at h
      have h1 : (match reg rid with
          | none => (reg, ([Emit.privErr "Join a room first."] : List Emit))
          | some room => handleMoveRoom reg rid room b.symbol p.index rnd).1 id =
            some r := h
      rcases hroom : reg rid with _ | room
      · rw [hroom] at h1
        exact hinv id r h1
      · rw [hroom] at h1
        have h2 : (handleMoveRoom reg rid room b.symbol p.index rnd).1 id = some r := h1
        rw [handleMoveRoom.eq_def] at h2
        rcases hmc : moveCheck room b.symbol p.index with msg | i <;> rw [hmc] at h2
        · exact hinv id r h2
        · have h3 : regSet reg rid
              (if (applyMove room b.symbol i).mode = Mode.bot then
                maybeBotMove (applyMove room b.symbol i) rnd
              else (applyMove room b.symbol i, false)).1 id = some r := h2
          rw [regSet_lookup] at h3
          by_cases hid : id = rid
          · rw [if_pos hid] at h3
            injection h3 with h3
            subst h3
            have hlen : room.board.length = 9 := hinv rid room hroom
            by_cases hmode : (applyMove room b.symbol i).mode = Mode.bot
            · rw [if_pos hmode, maybeBotMove_board_len, applyMove_board, List.length_set]
              exact hlen
            · rw [if_neg hmode]
              show (applyMove room b.symbol i).board.length = 9
              rw [applyMove_board, List.length_set]
              exact hlen
          · rw [if_neg hid] at h3
            exact hinv id r h3

theorem handleReset_leninv (reg : Registry) (sd : Option SBind) (p : ResetPayload) (rnd : Nat)
    (hinv : ∀ id r, reg id = some r → r.board.length = 9) :
    ∀ id r, (handleReset reg sd p rnd).1 id = some r → r.board.length = 9 := by
  intro id r h
  rcases sd with _ | b
  · rw [handleReset.eq_def] at h
    rcases hsan : sanitize p.roomId (Option.map SBind.roomId none) with _ | rid <;>
      rw [hsan] at h <;> exact hinv id r h
  · rw [handleReset.eq_def] at h
    rcases hsan : sanitize p.roomId (Option.map SBind.roomId (some b)) with _ | rid
    · rw [hsan] at h
      exact hinv id r h
    · rw [hsan] at h
      have h1 : (match reg rid with
          | none => (reg, ([Emit.privErr "Join a room first."] : List Emit))
          | some room =>
            (regSet reg rid (maybeBotMove (resetRoom room) rnd).1,
              [Emit.broadcast rid] ++
                (if (maybeBotMove (resetRoom room) rnd).2 then [Emit.broadcast rid]
                  else []))).1 id = some r := h
      rcases hroom : reg rid with _ | room
      · rw [hroom] at h1
        exact hinv id r h1
      · rw [hroom] at h1
        have h2 : regSet reg rid (maybeBotMove (resetRoom room) rnd).1 id = some r := h1
        rw [regSet_lookup] at h2
        by_cases hid : id = rid
        · rw [if_pos hid] at h2
          injection h2 with h2
          subst h2
          rw [maybeBotMove_board_len]
          exact length_emptyBoard
        · rw [if_neg hid] at h2
          exact hinv id r h2

theorem handleDisconnect_leninv (reg : Registry) (sd : Option SBind) (sid : String)
    (hinv : ∀ id r, reg id = some r → r.board.length = 9) :
    ∀ id r, (handleDisconnect reg sd sid).1 id = some r → r.board.length = 9 := by
  intro id r h
  rcases sd with _ | b
  · exact hinv id r h
  · rw [handleDisconnect.eq_def] at h
    have h1 : (match reg b.roomId with
        | none => (reg, ([] : List Emit))
        | some room =>
          (regSet reg b.roomId
            (if hasHuman (match room.sockets.lookup sid with
                | some symbol =>
                  { (if ((getPlayer room symbol).isSome &&
                        !(isBotP (getPlayer room symbol))) = true
                      then setPlayer room symbol none else room) with
                    sockets := msDel (if ((getPlayer room symbol).isSome &&
                        !(isBotP (getPlayer room symbol))) = true
                      then setPlayer room symbol none else room).sockets sid }
                | none => room)
              then (match room.sockets.lookup sid with
                | some symbol =>
                  { (if ((getPlayer room symbol).isSome &&
                        !(isBotP (getPlayer room symbol))) = true
                      then setPlayer room symbol none else room) with
                    sockets := msDel (if ((getPlayer room symbol).isSome &&
                        !(isBotP (getPlayer room symbol))) = true
                      then setPlayer room symbol none else room).sockets sid }
                | none => room)
              else resetRoom (match room.sockets.lookup sid with
                | some symbol =>
                  { (if ((getPlayer room symbol).isSome &&
                        !(isBotP (getPlayer room symbol))) = true
                      then setPlayer room symbol none else room) with
                    sockets := msDel (if ((getPlayer room symbol).isSome &&
                        !(isBotP (getPlayer room symbol))) = true
                      then setPlayer room symbol none else room).sockets sid }
                | none => room)),
            [Emit.broadcast b.roomId])).1 id = some r := h
    rcases hroom : reg b.roomId with _ | room
    · rw [hroom] at h1
      exact hinv id r h1
    · rw [hroom] at h1
      have h2 : regSet reg b.roomId _ id = some r := h1
      rw [regSet_lookup] at h2
      by_cases hid : id = b.roomId
      · rw [if_pos hid] at h2
        injection h2 with h2
        subst h2
        have hlen : room.board.length = 9 := hinv b.roomId room hroom
        have hif : ∀ r1 : Room, r1.board.length = 9 →
            (if hasHuman r1 then r1 else resetRoom r1).board.length = 9 := by
          intro r1 hr1
          split
          · exact hr1
          · exact length_emptyBoard
        rcases hlk : room.sockets.lookup sid with _ | symbol
        · exact hif room hlen
        · exact hif _ (by rw [(cleaned_frame room symbol sid).1]; exact hlen)
      · rw [if_neg hid] at h2
        exact hinv id r h2

theorem handleJoin_leninv (reg : Registry) (sd : Option SBind) (sid : String)
    (p : JoinPayload) (rnd : Nat)
    (hinv : ∀ id r, reg id = some r → r.board.length = 9) :
    ∀ id r, (handleJoin reg sd sid p rnd).1 id = some r → r.board.length = 9 := by
  intro id r h
  rw [handleJoin.eq_def] at h
  dsimp only [] at h
  by_cases hname : (sanitize p.name (some "")).getD "" = ""
  · rw [if_pos hname] at h
    exact hinv id r h
  · rw [if_neg hname] at h
    set RID := (sanitize p.roomId (some "lobby")).getD "lobby" with hRID
    set R0 : Room := (match reg RID with
      | some q => q
      | none => createRoom RID) with hR0
    have hlen0 : R0.board.length = 9 := by
      rw [hR0]
      rcases hq : reg RID with _ | q
      · exact length_emptyBoard
      · exact hinv RID q hq
    have hset : ∀ (rg : Registry) (rm : Room),
        (∀ j q, rg j = some q → q.board.length = 9) → rm.board.length = 9 →
        (∀ j q, regSet rg RID rm j = some q → q.board.length = 9) := by
      intro rg rm hrg hrm j q hq
      rw [regSet_lookup] at hq
      by_cases hj : j = RID
      · rw [if_pos hj] at hq
        injection hq with hq
        subst hq
        exact hrm
      · rw [if_neg hj] at hq
        exact hrg j q hq
    have hreg1 := hset reg R0 hinv hlen0
    by_cases hh : hasHuman R0 = true
    · rw [if_neg (show ¬((!hasHuman R0) = true) by simp [hh])] at h
      by_cases hm : R0.mode ≠ normalizeMode p.mode
      · rw [if_pos hm] at h
        dsimp only [] at h
        exact hreg1 id r h
      · rw [if_neg hm] at h
        dsimp only [] at h
        by_cases hbot : normalizeMode p.mode = Mode.bot
        · rw [if_pos hbot, if_pos hh] at h
          dsimp only [] at h
          exact hreg1 id r h
        · rw [if_neg hbot] at h
          by_cases hpx : R0.playerX = none
          · rw [if_pos hpx] at h
            dsimp only [] at h
            refine hset _ _ hreg1 ?_ id r h
            simp only [setPlayer_board]
            exact hlen0
          · rw [if_neg hpx] at h
            by_cases hpo : R0.playerO = none
            · rw [if_pos hpo] at h
              dsimp only [] at h
              refine hset _ _ hreg1 ?_ id r h
              simp only [setPlayer_board]
              exact hlen0
            · rw [if_neg hpo] at h
              dsimp only [] at h
              exact hreg1 id r h
    · rw [if_pos (show (!hasHuman R0) = true by simp [hh])] at h
      dsimp only [] at h
      by_cases hbot : normalizeMode p.mode = Mode.bot
      · simp only [if_pos hbot] at h
        rw [if_neg (show ¬(hasHuman R0 = true) by simp [hh])] at h
        dsimp only [] at h
        refine hset _ _ (hset _ _ hreg1 ?_) ?_ id r h
        · simp only [setPlayer_board, ensureBot_board]
          exact length_emptyBoard
        · rw [maybeBotMove_board_len]
          simp only [setPlayer_board, ensureBot_board]
          exact length_emptyBoard
      · simp only [if_neg hbot] at h
        by_cases hpx : (ensurePvp (resetRoom R0)).playerX = none
        · rw [if_pos hpx] at h
          dsimp only [] at h
          refine hset _ _ hreg1 ?_ id r h
          simp only [setPlayer_board, ensurePvp_board]
          exact length_emptyBoard
        · rw [if_neg hpx] at h
          by_cases hpo : (ensurePvp (resetRoom R0)).playerO = none
          · rw [if_pos hpo] at h
            dsimp only [] at h
            refine hset _ _ hreg1 ?_ id r h
            simp only [setPlayer_board, ensurePvp_board]
            exact length_emptyBoard
          · rw [if_neg hpo] at h
            dsimp only [] at h
            exact hreg1 id r h

/-- Every reachable registry holds only 9-cell boards. -/
theorem reach_leninv {s : SrvState} (h : Reach s) :
    ∀ id r, s.rooms id = some r → r.board.length = 9 := by
  induction h with
  | init =>
    intro id r h
    cases h
  | step hr hstep ih =>
    cases hstep with
    | join sid p rnd => exact handleJoin_leninv _ _ _ _ _ ih
    | move sid p rnd => exact handleMove_leninv _ _ _ _ ih
    | reset sid p rnd => exact handleReset_leninv _ _ _ _ ih
    | disconnect sid => exact handleDisconnect_leninv _ _ _ ih


/-- An accepted move — the validated human write plus any chained bot reply —
never overwrites an occupied cell, and a rejected request changes nothing. -/
theorem handleMove_no_overwrite (reg : Registry) (sd : Option SBind) (p : MovePayload)
    (rnd : Nat) (id : String) (room r' : Room)
    (hroom : reg id = some room)
    (hres : (handleMove reg sd p rnd).1 id = some r') :
    ∀ i, cellAt room.board i ≠ none → cellAt r'.board i = cellAt room.board i := by
  intro i hi
  have hsame : ∀ h : reg id = some r', cellAt r'.board i = cellAt room.board i := by
    intro h
    rw [hroom] at h
    injection h with h
    rw [h]
  rcases sd with _ | b
  · rw [handleMove.eq_def] at hres
    rcases hsan : sanitize p.roomId (Option.map SBind.roomId none) with _ | rid <;>
      rw [hsan] at hres <;> exact hsame hres
  · rw [handleMove.eq_def] at hres
    rcases hsan : sanitize p.roomId (Option.map SBind.roomId (some b)) with _ | rid
    · rw [hsan] at hres
      exact hsame hres
    · rw [hsan] at hres
      have h1 : (match reg rid with
          | none => (reg, ([Emit.privErr "Join a room first."] : List Emit))
          | some rm => handleMoveRoom reg rid rm b.symbol p.index rnd).1 id =
            some r' := hres
      rcases hrr : reg rid with _ | rm
      · rw [hrr] at h1
        exact hsame h1
      · rw [hrr] at h1
        have h2 : (handleMoveRoom reg rid rm b.symbol p.index rnd).1 id = some r' := h1
        rw [handleMoveRoom.eq_def] at h2
        rcases hmc : moveCheck rm b.symbol p.index with msg | k <;> rw [hmc] at h2
        · exact hsame h2
        · have h3 : regSet reg rid
              (if (applyMove rm b.symbol k).mode = Mode.bot then
                maybeBotMove (applyMove rm b.symbol k) rnd
              else (applyMove rm b.symbol k, false)).1 id = some r' := h2
          rw [regSet_lookup] at h3
          by_cases hid : id = rid
          · subst hid
            rw [if_pos rfl] at h3
            injection h3 with h3
            rw [hroom] at hrr
            injection hrr with hrr
            subst hrr
            subst h3
            obtain ⟨-, -, -, -, hempty⟩ := moveCheck_ok hmc
            have hpres1 : cellAt (applyMove room b.symbol k).board i =
                cellAt room.board i :=
              applyMove_cell_preserve room b.symbol hempty i hi
            by_cases hmode : (applyMove room b.symbol k).mode = Mode.bot
            · rw [if_pos hmode]
              rcases maybeBotMove_cases (applyMove room b.symbol k) rnd with
                hcase | ⟨bb, jj, hbs, hjm, hcase⟩
              · rw [hcase]
                exact hpres1
              · rw [hcase]
                rcases mem_getAvailableMoves.mp hjm with ⟨hjlt, hjcell⟩
                have hpres2 := applyMove_cell_preserve (applyMove room b.symbol k) bb
                  hjcell i (by rw [hpres1]; exact hi)
                rw [hpres2, hpres1]
            · rw [if_neg hmode]
              exact hpres1
          · rw [if_neg hid] at h3
            exact hsame h3

/-- **C7.** In every reachable server state each room's board has exactly 9
cells, and the move path — an accepted human move and the chained bot move —
only ever writes empty cells: an occupied cell is never overwritten, so
between two full resets each cell changes at most once, from empty to a
symbol. -/
theorem c7_board_write_once (s : SrvState) (hre : Reach s) :
    (∀ id r, s.rooms id = some r → r.board.length = 9) ∧
    (∀ sid p rnd id room r',
      s.rooms id = some room →
      (handleMove s.rooms (s.data sid) p rnd).1 id = some r' →
      ∀ i, cellAt room.board i ≠ none → cellAt r'.board i = cellAt room.board i) :=
  ⟨reach_leninv hre, fun sid p rnd id room r' hroom hres =>
    handleMove_no_overwrite s.rooms (s.data sid) p rnd id room r' hroom hres⟩

/-- Witness for C7 at the freshly started server. -/
theorem c7_board_write_once_witness :
    (∀ id r, initState.rooms id = some r → r.board.length = 9) ∧
    (∀ sid p rnd id room r',
      initState.rooms id = some room →
      (handleMove initState.rooms (initState.data sid) p rnd).1 id = some r' →
      ∀ i, cellAt room.board i ≠ none → cellAt r'.board i = cellAt room.board i) :=
  c7_board_write_once initState Reach.init


/-- Witness for C5: Alice, bound to room `"A"` with symbol `X`. -/
theorem c5_move_validation_witness :
    sanitize (some "A") (some (SBind.mk "A" Sym.X "Alice").roomId) = some "A" ∧
    regSet (fun _ => none) "A" (createRoom "A") "A" = some (createRoom "A") ∧
    (((createRoom "A").turn ≠ (SBind.mk "A" Sym.X "Alice").symbol →
      handleMove (regSet (fun _ => none) "A" (createRoom "A"))
          (some ⟨"A", Sym.X, "Alice"⟩) ⟨some "A", some 4⟩ 0 =
        (regSet (fun _ => none) "A" (createRoom "A"),
          [Emit.privErr "Not your turn."])) ∧
    ((createRoom "A").turn = (SBind.mk "A" Sym.X "Alice").symbol →
      ((createRoom "A").winner ≠ none ∨ (createRoom "A").isDraw = true) →
      handleMove (regSet (fun _ => none) "A" (createRoom "A"))
          (some ⟨"A", Sym.X, "Alice"⟩) ⟨some "A", some 4⟩ 0 =
        (regSet (fun _ => none) "A" (createRoom "A"),
          [Emit.privErr "Game is finished."])) ∧
    ((createRoom "A").turn = (SBind.mk "A" Sym.X "Alice").symbol →
      (createRoom "A").winner = none → (createRoom "A").isDraw = false →
      ((MovePayload.mk (some "A") (some 4)).index = none ∨
        ∃ v : Int, (MovePayload.mk (some "A") (some 4)).index = some v ∧
          (v < 0 ∨ 8 < v)) →
      handleMove (regSet (fun _ => none) "A" (createRoom "A"))
          (some ⟨"A", Sym.X, "Alice"⟩) ⟨some "A", some 4⟩ 0 =
        (regSet (fun _ => none) "A" (createRoom "A"),
          [Emit.privErr "Invalid move."])) ∧
    (∀ v : Int, (createRoom "A").turn = (SBind.mk "A" Sym.X "Alice").symbol →
      (createRoom "A").winner = none → (createRoom "A").isDraw = false →
      (MovePayload.mk (some "A") (some 4)).index = some v → ¬(v < 0 ∨ 8 < v) →
      cellAt (createRoom "A").board v.toNat ≠ none →
      handleMove (regSet (fun _ => none) "A" (createRoom "A"))
          (some ⟨"A", Sym.X, "Alice"⟩) ⟨some "A", some 4⟩ 0 =
        (regSet (fun _ => none) "A" (createRoom "A"),
          [Emit.privErr "Cell already taken."])) ∧
    (∀ v : Int, (createRoom "A").turn = (SBind.mk "A" Sym.X "Alice").symbol →
      (createRoom "A").winner = none → (createRoom "A").isDraw = false →
      (MovePayload.mk (some "A") (some 4)).index = some v → ¬(v < 0 ∨ 8 < v) →
      cellAt (createRoom "A").board v.toNat = none →
      ∃ room' es, handleMove (regSet (fun _ => none) "A" (createRoom "A"))
          (some ⟨"A", Sym.X, "Alice"⟩) ⟨some "A", some 4⟩ 0 =
        (regSet (regSet (fun _ => none) "A" (createRoom "A")) "A" room', es) ∧
        Emit.broadcast "A" ∈ es ∧ ∀ msg, Emit.privErr msg ∉ es)) :=
  ⟨by decide, by decide,
    c5_move_validation (regSet (fun _ => none) "A" (createRoom "A"))
      ⟨"A", Sym.X, "Alice"⟩ ⟨some "A", some 4⟩ 0 "A" (createRoom "A")
      (by decide) (by decide)⟩

end TTT
